import Mathlib

/-! ServiceBinding validation and defaulting.

A shallow embedding of `pkg/apis/servicebinding/v1alpha2/servicebinding_types.go`
(`ServiceBinding.Validate`, `Mapping.Validate`, `ServiceBinding.SetDefaults`) together
with the properties of the specification that are settled against it.

Conventions of the embedding:

* a Go `*apis.FieldError` is a list of path-qualified errors, `[]` being the nil aggregate;
* a run-time abort (index out of range) is the result `none`;
* a Go `map[string][]int` is an association list in first-insertion order, and a
  `range` over it visits the entries in an order chosen by a `MapOrder`;
* validators that live outside the file (`ApplicationReference.Validate`,
  `tracker.Reference.Validate`, `EnvVar.Validate`) are the fields of `Externals`.
-/

namespace ServiceBindings

/-! ## Path-qualified errors -/

/-- Modelled from the spec: the failure shapes of the path-qualified error of section 4.1
(`knative.dev/pkg/apis` is not part of the sources). The three shapes used by the core are
`missingField`, `disallowedField` and `multipleOneOf`; `other` stands for any further shape
that an external validator may report. -/
inductive ErrKind where
  | missingField
  | disallowedField
  | multipleOneOf
  | other (message : String)
  deriving DecidableEq, Repr

/-- Modelled from the spec: one validation failure, tagged with the paths of the offending
fields (section 4.1). -/
structure FieldErr where
  kind : ErrKind
  paths : List String
  deriving DecidableEq, Repr

/-- Modelled from the spec: the aggregate error of section 4.1, zero or more failures in the
order they were reported. The empty list is the nil aggregate ("no violations found"). -/
abbrev FieldError := List FieldErr

/-- Modelled from the spec: `combine(a, b)`, the associative, order-preserving aggregation
of section 4.1 (`errs.Also(e)` in the source). -/
def Also (errs e : FieldError) : FieldError := errs ++ e

/-- Modelled from the spec: `missingField(path...)`. -/
def ErrMissingField (fieldPaths : List String) : FieldError :=
  [{ kind := ErrKind.missingField, paths := fieldPaths }]

/-- Modelled from the spec: `disallowedField(path...)`. -/
def ErrDisallowedFields (fieldPaths : List String) : FieldError :=
  [{ kind := ErrKind.disallowedField, paths := fieldPaths }]

/-- Modelled from the spec: `multipleOneOf(paths...)`. -/
def ErrMultipleOneOf (fieldPaths : List String) : FieldError :=
  [{ kind := ErrKind.multipleOneOf, paths := fieldPaths }]

/-- Modelled from the spec: prepending one path segment to a path (section 4.1). An index
segment attaches without a dot, an empty path is the current field. -/
def joinPath (pre p : String) : String :=
  if p = "" then pre
  else if p.data.head? = some '[' then pre ++ p
  else pre ++ "." ++ p

/-- Modelled from the spec: the path segment of an array index. -/
def asIndex (i : Nat) : String := "[" ++ toString i ++ "]"

/-- Modelled from the spec: `viaField(path)`, prepend a segment to every path carried. -/
def ViaField (pre : String) (fe : FieldError) : FieldError :=
  fe.map (fun e => { e with paths := e.paths.map (joinPath pre) })

/-- Modelled from the spec: `viaIndex(i)`, prepend an array index to every path carried. -/
def ViaIndex (i : Nat) (fe : FieldError) : FieldError :=
  ViaField (asIndex i) fe

/-- Modelled from the spec: `ViaFieldIndex(field, i)` is `viaIndex(i)` then `viaField(field)`. -/
def ViaFieldIndex (field : String) (i : Nat) (fe : FieldError) : FieldError :=
  ViaField field (ViaIndex i fe)

/-- The aggregate holds an error of the given kind one of whose paths is `path`. -/
def HasErrorAt (errs : FieldError) (kind : ErrKind) (path : String) : Prop :=
  ∃ e ∈ errs, e.kind = kind ∧ path ∈ e.paths

instance (errs : FieldError) (kind : ErrKind) (path : String) :
    Decidable (HasErrorAt errs kind path) := by
  unfold HasErrorAt; infer_instance

/-! ## Data model -/

/-- Modelled from the spec: the polymorphic reference `{kind, apiVersion, name, namespace?}`
of section 6 (`tracker.Reference` is not part of the sources). -/
structure Reference where
  APIVersion : String
  Kind : String
  Namespace : String
  Name : String
  deriving DecidableEq, Repr

/-- Modelled from the spec: the application reference is a `Reference` (section 3); its
declaration lives in the `servicebindinginternal` package. -/
abbrev ApplicationReference := Reference

/-- Modelled from the spec: an environment projection has a `name` and a source key
(section 3); its declaration lives in the `servicebindinginternal` package. -/
structure EnvVar where
  Name : String
  Key : String
  deriving DecidableEq, Repr

structure Mapping where
  Name : String
  Value : String
  deriving DecidableEq, Repr

structure ServiceBindingSpec where
  Name : String
  Type_ : String
  Provider : String
  Application : Option ApplicationReference
  Service : Option Reference
  Env : List EnvVar
  Mappings : List Mapping
  deriving DecidableEq, Repr

/-- Modelled from the spec: the generic status of section 6. `Annotations = none` is the nil
map, `some []` a map that was allocated but holds no entry. -/
structure Status where
  ObservedGeneration : Int
  Conditions : List (String × String)
  Annotations : Option (List (String × String))
  deriving DecidableEq, Repr

structure ServiceBindingStatus extends Status where
  Binding : Option String
  deriving DecidableEq, Repr

/-- Modelled from the spec: the envelope fields kind and apiVersion (section 6). -/
structure TypeMeta where
  Kind : String
  APIVersion : String
  deriving DecidableEq, Repr

/-- Modelled from the spec: the envelope metadata of section 6; the core reads `Name` only. -/
structure ObjectMeta where
  Name : String
  Namespace : String
  ResourceVersion : String
  Labels : List (String × String)
  Annotations : List (String × String)
  deriving DecidableEq, Repr

structure ServiceBinding where
  TypeMeta : TypeMeta
  ObjectMeta : ObjectMeta
  Spec : ServiceBindingSpec
  Status : ServiceBindingStatus
  deriving DecidableEq, Repr

/-- The validators consumed by `ServiceBinding.Validate` whose code is outside the file. -/
structure Externals where
  /-- Stands for `ApplicationReference.Validate`. -/
  applicationValidate : ApplicationReference → FieldError
  /-- Stands for `tracker.Reference.Validate`. -/
  referenceValidate : Reference → FieldError
  /-- Stands for `EnvVar.Validate`. -/
  envVarValidate : EnvVar → FieldError

/-! ## The name-to-positions maps -/

/-- A Go `map[string][]int`, as the list of its entries in first-insertion order. -/
abbrev NameSet := List (String × List Nat)

/-- The test `_, ok := m[k]`. -/
def NameSet.has : NameSet → String → Bool
  | [], _ => false
  | (k', _) :: rest, k => if k' = k then true else NameSet.has rest k

/-- The read `m[k]`; a missing key reads as the nil slice. -/
def NameSet.get : NameSet → String → List Nat
  | [], _ => []
  | (k', v) :: rest, k => if k' = k then v else NameSet.get rest k

/-- The write `m[k] = v`. -/
def NameSet.set : NameSet → String → List Nat → NameSet
  | [], k, v => [(k, v)]
  | (k', v') :: rest, k, v =>
    if k' = k then (k', v) :: rest else (k', v') :: NameSet.set rest k v

/-- The order in which one `range` statement visits the entries of a map: some
rearrangement of the entries, not fixed by the language. -/
structure MapOrder where
  iter : NameSet → NameSet
  perm : ∀ m, (iter m).Perm m

/-- The iteration order that visits the entries in insertion order. -/
def MapOrder.insertion : MapOrder := ⟨fun m => m, fun _ => List.Perm.refl _⟩

/-- The iteration order that visits the entries in reverse insertion order. -/
def MapOrder.reversed : MapOrder := ⟨fun m => m.reverse, fun m => List.reverse_perm m⟩

/-! ## Validation -/

/-- The method `Mapping.Validate`. -/
def Mapping.Validate (m : Mapping) : FieldError :=
  let errs : FieldError := []
  let errs := if m.Name = "" then Also errs (ErrMissingField ["name"]) else errs
  errs

/-- Lines 95-111: the application reference. -/
def checkApplication (ext : Externals) (b : ServiceBinding) (errs : FieldError) : FieldError :=
  match b.Spec.Application with
  | none => Also errs (ErrMissingField ["spec.application"])
  | some app =>
    let a : ApplicationReference := { app with Namespace := "fake" }
    let errs := Also errs (ViaField "spec.application" (ext.applicationValidate a))
    if app.Namespace ≠ "" then
      Also errs (ErrDisallowedFields ["spec.application.namespace"])
    else errs

/-- Lines 113-134: the service reference. -/
def checkService (ext : Externals) (b : ServiceBinding) (errs : FieldError) : FieldError :=
  match b.Spec.Service with
  | none => Also errs (ErrMissingField ["spec.service"])
  | some svc =>
    let s : Reference := { svc with Namespace := "fake" }
    let errs := Also errs (ViaField "spec.service" (ext.referenceValidate s))
    let errs :=
      if svc.Namespace ≠ "" then
        Also errs (ErrDisallowedFields ["spec.service.namespace"])
      else errs
    if svc.Name = "" then
      Also errs (ErrMissingField ["spec.service.name"])
    else errs

/-- Lines 137-145: the loop `for i, e := range b.Spec.Env`, from index `i` on, over the
running aggregate and `envSet`. -/
def envLoop (ext : Externals) : List EnvVar → Nat → FieldError × NameSet → FieldError × NameSet
  | [], _, st => st
  | e :: es, i, (errs, envSet) =>
    let errs := Also errs (ViaField "spec" (ViaFieldIndex "env" i (ext.envVarValidate e)))
    let envSet := if envSet.has e.Name then envSet else envSet.set e.Name []
    let envSet := envSet.set e.Name (envSet.get e.Name ++ [i])
    envLoop ext es (i + 1) (errs, envSet)

/-- Lines 160-168: the loop `for i, m := range b.Spec.Mappings`. -/
def mappingLoop : List Mapping → Nat → FieldError × NameSet → FieldError × NameSet
  | [], _, st => st
  | m :: ms, i, (errs, mappingSet) =>
    let errs := Also errs (ViaField "spec" (ViaFieldIndex "mappings" i m.Validate))
    let mappingSet := if mappingSet.has m.Name then mappingSet else mappingSet.set m.Name []
    let mappingSet := mappingSet.set m.Name (mappingSet.get m.Name ++ [i])
    mappingLoop ms (i + 1) (errs, mappingSet)

/-- The path `fmt.Sprintf("spec.env[%d].name", pi)`. -/
def envPath (pi : Nat) : String := "spec.env[" ++ toString pi ++ "].name"

/-- The path `fmt.Sprintf("spec.mappings[%d].name", pi)`. -/
def mappingPath (pi : Nat) : String := "spec.mappings[" ++ toString pi ++ "].name"

/-- Lines 150-152 (and 173-175): the loop `for pi, i := range v { paths[i] = Sprintf(.., pi) }`
from counter `pi` on. The write `paths[i]` aborts when `i` is not below `len(paths)`. -/
def writePaths (sprintf : Nat → String) : List Nat → Nat → List String → Option (List String)
  | [], _, paths => some paths
  | i :: v, pi, paths =>
    if i < paths.length then writePaths sprintf v (pi + 1) (paths.set i (sprintf pi))
    else none

/-- Lines 147-157 (and 170-180): the loop over the entries of the name set, in the order
the `range` visits them. -/
def conflictLoop (sprintf : Nat → String) : NameSet → FieldError → Option FieldError
  | [], errs => some errs
  | (_, v) :: rest, errs =>
    if v.length ≠ 1 then
      match writePaths sprintf v 0 (List.replicate v.length "") with
      | none => none
      | some paths => conflictLoop sprintf rest (Also errs (ErrMultipleOneOf paths))
    else conflictLoop sprintf rest errs

/-- Lines 182-186: status annotations. -/
def checkStatus (b : ServiceBinding) (errs : FieldError) : FieldError :=
  if b.Status.Annotations ≠ none then
    Also errs (ErrDisallowedFields ["status.annotations"])
  else errs

/-- The method `ServiceBinding.Validate`. The result `none` is a run-time abort; `some errs` is the
returned aggregate. `envOrder` and `mappingOrder` are the orders in which the two `range`
statements over `envSet` and `mappingSet` visit their entries. -/
def ServiceBinding.Validate (ext : Externals) (envOrder mappingOrder : MapOrder)
    (b : ServiceBinding) : Option FieldError :=
  let errs : FieldError := []
  let errs := checkApplication ext b errs
  let errs := checkService ext b errs
  let (errs, envSet) := envLoop ext b.Spec.Env 0 (errs, [])
  match conflictLoop envPath (envOrder.iter envSet) errs with
  | none => none
  | some errs =>
    let (errs, mappingSet) := mappingLoop b.Spec.Mappings 0 (errs, [])
    match conflictLoop mappingPath (mappingOrder.iter mappingSet) errs with
    | none => none
    | some errs => some (checkStatus b errs)

/-! ## Defaulting -/

/-- The method `ServiceBinding.SetDefaults`; `b.Name` is the promoted field `b.ObjectMeta.Name`. -/
def ServiceBinding.SetDefaults (b : ServiceBinding) : ServiceBinding :=
  if b.Spec.Name = "" then { b with Spec := { b.Spec with Name := b.ObjectMeta.Name } }
  else b

/-! ## Concrete collaborators and descriptors used in the examples -/

/-- A reference validator in the shape section 4.2 describes: it checks `kind`,
`apiVersion`, `name` and the presence of a namespace. -/
def sampleReferenceValidate (r : Reference) : FieldError :=
  let errs : FieldError := []
  let errs := if r.APIVersion = "" then Also errs (ErrMissingField ["apiVersion"]) else errs
  let errs := if r.Kind = "" then Also errs (ErrMissingField ["kind"]) else errs
  let errs := if r.Namespace = "" then Also errs (ErrMissingField ["namespace"]) else errs
  let errs := if r.Name = "" then Also errs (ErrMissingField ["name"]) else errs
  errs

/-- An item validator for `EnvVar` requiring `name` and `key`. -/
def sampleEnvVarValidate (e : EnvVar) : FieldError :=
  let errs : FieldError := []
  let errs := if e.Name = "" then Also errs (ErrMissingField ["name"]) else errs
  let errs := if e.Key = "" then Also errs (ErrMissingField ["key"]) else errs
  errs

def sampleExternals : Externals :=
  ⟨sampleReferenceValidate, sampleReferenceValidate, sampleEnvVarValidate⟩

def sampleApplication : ApplicationReference :=
  { APIVersion := "apps/v1", Kind := "Deployment", Namespace := "", Name := "my-app" }

def sampleService : Reference :=
  { APIVersion := "v1", Kind := "Secret", Namespace := "", Name := "my-secret" }

def sampleStatus : ServiceBindingStatus :=
  { ObservedGeneration := 0, Conditions := [], Annotations := none, Binding := none }

/-- A descriptor with the given resource name, spec name, references, env and mappings. -/
def mkBinding (name specName : String) (app : Option ApplicationReference)
    (svc : Option Reference) (env : List EnvVar) (mappings : List Mapping) : ServiceBinding :=
  { TypeMeta := { Kind := "ServiceBinding", APIVersion := "service.binding/v1alpha2" }
    ObjectMeta := { Name := name, Namespace := "default", ResourceVersion := "1",
                    Labels := [], Annotations := [] }
    Spec := { Name := specName, Type_ := "", Provider := "", Application := app,
              Service := svc, Env := env, Mappings := mappings }
    Status := sampleStatus }

/-! ## Proof-side descriptions of the loops -/

/-- The positions, counted from `i`, at which `x` occurs in a list of names. -/
def positionsFrom (x : String) : List String → Nat → List Nat
  | [], _ => []
  | n :: ns, i =>
    if n = x then i :: positionsFrom x ns (i + 1) else positionsFrom x ns (i + 1)

/-- The map-building part shared by `envLoop` and `mappingLoop`, over the names only. -/
def recordNames : List String → Nat → NameSet → NameSet
  | [], _, m => m
  | n :: ns, i, m =>
    let m1 := if m.has n then m else m.set n []
    recordNames ns (i + 1) (m1.set n (m1.get n ++ [i]))

/-- The item errors that `envLoop` adds, from index `i` on. -/
def envItemErrs (ext : Externals) : List EnvVar → Nat → FieldError
  | [], _ => []
  | e :: es, i =>
    ViaField "spec" (ViaFieldIndex "env" i (ext.envVarValidate e)) ++ envItemErrs ext es (i + 1)

/-- The item errors that `mappingLoop` adds, from index `i` on. -/
def mappingItemErrs : List Mapping → Nat → FieldError
  | [], _ => []
  | m :: ms, i =>
    ViaField "spec" (ViaFieldIndex "mappings" i m.Validate) ++ mappingItemErrs ms (i + 1)

/-- The name set that `Validate` builds for `env`. -/
def envSetOf (b : ServiceBinding) : NameSet :=
  recordNames (b.Spec.Env.map EnvVar.Name) 0 []

/-- The name set that `Validate` builds for `mappings`. -/
def mappingSetOf (b : ServiceBinding) : NameSet :=
  recordNames (b.Spec.Mappings.map Mapping.Name) 0 []

/-- The aggregate as it stands when the conflict loop over `envSet` starts. -/
def errsBeforeEnvConflicts (ext : Externals) (b : ServiceBinding) : FieldError :=
  checkApplication ext b [] ++ checkService ext b [] ++ envItemErrs ext b.Spec.Env 0

/-! ## Descriptors used in the statements below -/

/-- A fully valid descriptor: env `A`, `B` and the mapping `M = v`. -/
def validBinding : ServiceBinding :=
  mkBinding "foo" "" (some sampleApplication) (some sampleService)
    [⟨"A", "a"⟩, ⟨"B", "b"⟩] [⟨"M", "v"⟩]

/-- Env names `A`, `B`, `A`: the name `A` sits at positions 0 and 2. -/
def envDuplicateApart : ServiceBinding :=
  mkBinding "foo" "" (some sampleApplication) (some sampleService)
    [⟨"A", "a"⟩, ⟨"B", "b"⟩, ⟨"A", "c"⟩] [⟨"M", "v"⟩]

/-- Mapping names `M`, `N`, `M`: the name `M` sits at positions 0 and 2. -/
def mappingDuplicateApart : ServiceBinding :=
  mkBinding "foo" "" (some sampleApplication) (some sampleService)
    [⟨"A", "a"⟩] [⟨"M", "v"⟩, ⟨"N", "w"⟩, ⟨"M", "x"⟩]

/-- Env names `A`, `X`, `X`: the name `X` sits at positions 1 and 2. -/
def envDuplicateLate : ServiceBinding :=
  mkBinding "foo" "" (some sampleApplication) (some sampleService)
    [⟨"A", "a"⟩, ⟨"X", "x"⟩, ⟨"X", "y"⟩] []

/-- Mapping names `M`, `N`, `N`: the name `N` sits at positions 1 and 2. -/
def mappingDuplicateLate : ServiceBinding :=
  mkBinding "foo" "" (some sampleApplication) (some sampleService)
    [] [⟨"M", "v"⟩, ⟨"N", "w"⟩, ⟨"N", "x"⟩]

/-- No application, and env names `X`, `Y`, `Y`. -/
def noApplicationEnvDuplicate : ServiceBinding :=
  mkBinding "foo" "" none (some sampleService)
    [⟨"X", "x"⟩, ⟨"Y", "y"⟩, ⟨"Y", "z"⟩] []

/-- The application carries the namespace `other` and is otherwise valid. -/
def applicationWithNamespace : ServiceBinding :=
  mkBinding "foo" "" (some { sampleApplication with Namespace := "other" })
    (some sampleService) [⟨"A", "a"⟩] [⟨"M", "v"⟩]

/-- The name `x` occupies exactly the first positions of `names`: position `i` holds `x`
exactly when `i` is below the number of entries that hold `x`. -/
def OccupiesFirst (names : List String) (x : String) : Prop :=
  ∀ i, names[i]? = some x ↔ i < names.count x

/-- The errors that a conflict loop which finishes adds for a list of names: one
multiple-owners error over the first positions when the first name is held more than once. -/
def conflictErrs (sprintf : Nat → String) : List String → FieldError
  | [] => []
  | x :: rest =>
    if 2 ≤ (x :: rest).count x then
      ErrMultipleOneOf ((List.range ((x :: rest).count x)).map sprintf)
    else []

/-- What `Validate` adds after the two reference steps, started from the nil aggregate:
the env item errors, the env conflicts, the mapping item errors, the mapping conflicts and
the status error; `none` when one of the conflict loops aborts. -/
def validateTail (ext : Externals) (eo mo : MapOrder) (b : ServiceBinding) :
    Option FieldError :=
  match conflictLoop envPath (eo.iter (envSetOf b)) [] with
  | none => none
  | some x1 =>
    match conflictLoop mappingPath (mo.iter (mappingSetOf b)) [] with
    | none => none
    | some x2 =>
      some (envItemErrs ext b.Spec.Env 0 ++ x1 ++ mappingItemErrs b.Spec.Mappings 0 ++ x2 ++
        checkStatus b [])

/-- The error of the namespace check of a reference rooted at `path`, for the namespace
`ns` that the caller supplied. -/
def namespaceErrs (path ns : String) : FieldError :=
  if ns ≠ "" then ErrDisallowedFields [path] else []

/-- The valid descriptor, with a status annotations map that is allocated and empty. -/
def emptyAnnotationsBinding : ServiceBinding :=
  { validBinding with
    Status := { sampleStatus with Annotations := some [] } }

/-- The service carries no name and is otherwise valid. -/
def serviceWithoutName : ServiceBinding :=
  mkBinding "foo" "" (some sampleApplication) (some { sampleService with Name := "" })
    [⟨"A", "a"⟩] [⟨"M", "v"⟩]

/-- Two mappings, both with the empty name. -/
def twoUnnamedMappings : ServiceBinding :=
  mkBinding "foo" "" (some sampleApplication) (some sampleService)
    [] [⟨"", "v"⟩, ⟨"", "w"⟩]

/-- Env names `X`, `X`, `Y` and mapping names `M`, `M`: each duplicate sits first. -/
def duplicatesFirst : ServiceBinding :=
  mkBinding "foo" "" (some sampleApplication) (some sampleService)
    [⟨"X", "x"⟩, ⟨"X", "y"⟩, ⟨"Y", "z"⟩] [⟨"M", "v"⟩, ⟨"M", "w"⟩]

/-- A reference validator that rejects every namespace other than the placeholder. -/
def strictReferenceValidate (r : Reference) : FieldError :=
  if r.Namespace = "fake" then sampleReferenceValidate r
  else Also (sampleReferenceValidate r)
    [{ kind := ErrKind.other "namespace is not the placeholder", paths := ["namespace"] }]

def strictExternals : Externals :=
  ⟨strictReferenceValidate, strictReferenceValidate, sampleEnvVarValidate⟩

/-! ## Lemmas on name sets -/

theorem NameSet.has_eq_true_iff (m : NameSet) (k : String) :
    m.has k = true ↔ k ∈ m.map Prod.fst := by
  induction m with
  | nil => simp [NameSet.has]
  | cons kv rest ih =>
    obtain ⟨k1, v1⟩ := kv
    by_cases h : k1 = k
    · simp [NameSet.has, h]
    · have h2 : ¬ k = k1 := fun e => h e.symm
      simp [NameSet.has, h, h2, ih]

theorem NameSet.get_set_same (m : NameSet) (k : String) (v : List Nat) :
    (m.set k v).get k = v := by
  induction m with
  | nil => simp [NameSet.set, NameSet.get]
  | cons kv rest ih =>
    obtain ⟨k1, v1⟩ := kv
    by_cases h : k1 = k
    · simp [NameSet.set, NameSet.get, h]
    · simp [NameSet.set, NameSet.get, h, ih]

theorem NameSet.get_set_other (m : NameSet) (k x : String) (v : List Nat) (h : k ≠ x) :
    (m.set k v).get x = m.get x := by
  induction m with
  | nil => simp [NameSet.set, NameSet.get, h]
  | cons kv rest ih =>
    obtain ⟨k1, v1⟩ := kv
    by_cases h1 : k1 = k
    · subst h1; simp [NameSet.set, NameSet.get, h]
    · by_cases h2 : k1 = x
      · subst h2; simp [NameSet.set, NameSet.get, h1]
      · simp [NameSet.set, NameSet.get, h1, h2, ih]

theorem NameSet.keys_set (m : NameSet) (k : String) (v : List Nat) :
    (m.set k v).map Prod.fst =
      if k ∈ m.map Prod.fst then m.map Prod.fst else m.map Prod.fst ++ [k] := by
  induction m with
  | nil => simp [NameSet.set]
  | cons kv rest ih =>
    obtain ⟨k1, v1⟩ := kv
    by_cases h : k1 = k
    · simp [NameSet.set, h]
    · have h2 : ¬ k = k1 := fun e => h e.symm
      simp only [NameSet.set, h, if_false, List.map_cons, ih, List.mem_cons, h2, false_or]
      split <;> simp

theorem NameSet.mem_keys_set (m : NameSet) (k x : String) (v : List Nat) :
    x ∈ (m.set k v).map Prod.fst ↔ x ∈ m.map Prod.fst ∨ x = k := by
  rw [NameSet.keys_set]
  split
  · constructor
    · intro h; exact Or.inl h
    · rintro (h | h)
      · exact h
      · subst h; assumption
  · simp

theorem NameSet.nodup_keys_set (m : NameSet) (k : String) (v : List Nat)
    (h : (m.map Prod.fst).Nodup) : ((m.set k v).map Prod.fst).Nodup := by
  rw [NameSet.keys_set]
  split
  · exact h
  · rename_i hk
    exact List.Nodup.append h (List.nodup_singleton k) (by simpa using hk)

theorem NameSet.get_of_mem (m : NameSet) (k : String) (v : List Nat)
    (hn : (m.map Prod.fst).Nodup) (h : (k, v) ∈ m) : m.get k = v := by
  induction m with
  | nil => simp at h
  | cons kv rest ih =>
    obtain ⟨k1, v1⟩ := kv
    simp only [List.map_cons, List.nodup_cons] at hn
    rcases List.mem_cons.mp h with h1 | h1
    · injection h1 with h2 h3
      subst h2; subst h3; simp [NameSet.get]
    · have hk : k ∈ rest.map Prod.fst := List.mem_map.mpr ⟨(k, v), h1, rfl⟩
      have hne : ¬ k1 = k := fun e => hn.1 (e ▸ hk)
      simp [NameSet.get, hne, ih hn.2 h1]

theorem NameSet.mem_of_mem_keys (m : NameSet) (k : String) (h : k ∈ m.map Prod.fst) :
    (k, m.get k) ∈ m := by
  induction m with
  | nil => simp at h
  | cons kv rest ih =>
    obtain ⟨k1, v1⟩ := kv
    by_cases h1 : k1 = k
    · subst h1; simp [NameSet.get]
    · have h2 : ¬ k = k1 := fun e => h1 e.symm
      simp only [List.map_cons, List.mem_cons, h2, false_or] at h
      simp [NameSet.get, h1, ih h]

theorem NameSet.get_of_not_has (m : NameSet) (k : String) (h : m.has k = false) :
    m.get k = [] := by
  induction m with
  | nil => simp [NameSet.get]
  | cons kv rest ih =>
    obtain ⟨k1, v1⟩ := kv
    by_cases h1 : k1 = k
    · simp [NameSet.has, h1] at h
    · simp only [NameSet.has, h1, if_false] at h
      simp [NameSet.get, h1, ih h]

/-- One pass of the loop body on the name set: the entry of `n` gains position `i`, every
other entry is unchanged. -/
theorem NameSet.get_record_step (m : NameSet) (n x : String) (i : Nat) :
    (NameSet.set (if m.has n then m else m.set n []) n
        ((if m.has n then m else m.set n []).get n ++ [i])).get x =
      if n = x then m.get x ++ [i] else m.get x := by
  by_cases hx : n = x
  · subst hx
    rw [NameSet.get_set_same]
    by_cases hh : m.has n = true
    · simp [hh]
    · have hf : m.has n = false := by simpa using hh
      simp [NameSet.get_set_same, NameSet.get_of_not_has m n hf, hf]
  · rw [NameSet.get_set_other _ _ _ _ hx]
    by_cases hh : m.has n = true
    · simp [hh, hx]
    · have hf : m.has n = false := by simpa using hh
      simp [hf, hx, NameSet.get_set_other _ _ _ _ hx]

theorem NameSet.mem_keys_record_step (m : NameSet) (n x : String) (v : List Nat) :
    x ∈ (NameSet.set (if m.has n then m else m.set n []) n v).map Prod.fst ↔
      x ∈ m.map Prod.fst ∨ x = n := by
  rw [NameSet.mem_keys_set]
  by_cases hh : m.has n = true
  · simp [hh]
  · have hf : m.has n = false := by simpa using hh
    simp only [hf, Bool.false_eq_true, if_false, NameSet.mem_keys_set]
    tauto

theorem NameSet.nodup_keys_record_step (m : NameSet) (n : String) (v : List Nat)
    (h : (m.map Prod.fst).Nodup) :
    ((NameSet.set (if m.has n then m else m.set n []) n v).map Prod.fst).Nodup := by
  apply NameSet.nodup_keys_set
  split
  · exact h
  · exact NameSet.nodup_keys_set m n [] h

/-! ## Lemmas on `recordNames` and the two item loops -/

theorem recordNames_get (ns : List String) (i : Nat) (m : NameSet) (x : String) :
    (recordNames ns i m).get x = m.get x ++ positionsFrom x ns i := by
  induction ns generalizing i m with
  | nil => simp [recordNames, positionsFrom]
  | cons n ns ih =>
    simp only [recordNames, positionsFrom]
    rw [ih, NameSet.get_record_step]
    by_cases hx : n = x
    · simp [hx]
    · simp [hx]

theorem recordNames_mem_keys (ns : List String) (i : Nat) (m : NameSet) (x : String) :
    x ∈ (recordNames ns i m).map Prod.fst ↔ x ∈ m.map Prod.fst ∨ x ∈ ns := by
  induction ns generalizing i m with
  | nil => simp [recordNames]
  | cons n ns ih =>
    simp only [recordNames]
    rw [ih, NameSet.mem_keys_record_step, List.mem_cons]
    tauto

theorem recordNames_nodup_keys (ns : List String) (i : Nat) (m : NameSet)
    (h : (m.map Prod.fst).Nodup) : ((recordNames ns i m).map Prod.fst).Nodup := by
  induction ns generalizing i m with
  | nil => simpa [recordNames] using h
  | cons n ns ih =>
    simp only [recordNames]
    exact ih _ _ (NameSet.nodup_keys_record_step m n _ h)

theorem positionsFrom_length (x : String) (ns : List String) (i : Nat) :
    (positionsFrom x ns i).length = ns.count x := by
  induction ns generalizing i with
  | nil => simp [positionsFrom]
  | cons n ns ih =>
    by_cases h : n = x
    · simp [positionsFrom, h, ih]
    · simp [positionsFrom, h, ih, List.count_cons]

/-- Every entry of the name set built from `ns` holds the positions of its name. -/
theorem recordNames_entry (ns : List String) (k : String) (v : List Nat)
    (h : (k, v) ∈ recordNames ns 0 []) : k ∈ ns ∧ v = positionsFrom k ns 0 := by
  have hn : ((recordNames ns 0 []).map Prod.fst).Nodup :=
    recordNames_nodup_keys ns 0 [] (by simp)
  have hk : k ∈ (recordNames ns 0 []).map Prod.fst := List.mem_map.mpr ⟨(k, v), h, rfl⟩
  refine ⟨by simpa using (recordNames_mem_keys ns 0 [] k).mp hk, ?_⟩
  have hg := NameSet.get_of_mem _ k v hn h
  rw [recordNames_get] at hg
  simpa [NameSet.get] using hg.symm

/-- Every name of `ns` has an entry in the name set built from `ns`. -/
theorem recordNames_mem (ns : List String) (k : String) (h : k ∈ ns) :
    (k, positionsFrom k ns 0) ∈ recordNames ns 0 [] := by
  have hk : k ∈ (recordNames ns 0 []).map Prod.fst :=
    (recordNames_mem_keys ns 0 [] k).mpr (Or.inr h)
  have hm := NameSet.mem_of_mem_keys _ k hk
  rw [recordNames_get] at hm
  simpa [NameSet.get] using hm

theorem envLoop_eq (ext : Externals) (es : List EnvVar) (i : Nat) (errs : FieldError)
    (m : NameSet) :
    envLoop ext es i (errs, m) =
      (errs ++ envItemErrs ext es i, recordNames (es.map EnvVar.Name) i m) := by
  induction es generalizing i errs m with
  | nil => simp [envLoop, envItemErrs, recordNames]
  | cons e es ih =>
    simp only [envLoop, envItemErrs, recordNames, List.map_cons, Also]
    rw [ih]
    simp [List.append_assoc]

theorem mappingLoop_eq (ms : List Mapping) (i : Nat) (errs : FieldError) (m : NameSet) :
    mappingLoop ms i (errs, m) =
      (errs ++ mappingItemErrs ms i, recordNames (ms.map Mapping.Name) i m) := by
  induction ms generalizing i errs m with
  | nil => simp [mappingLoop, mappingItemErrs, recordNames]
  | cons e es ih =>
    simp only [mappingLoop, mappingItemErrs, recordNames, List.map_cons, Also]
    rw [ih]
    simp [List.append_assoc]

/-! ## Lemmas on the conflict loop -/

/-- An entry whose path loop aborts makes the whole conflict loop abort, wherever the
entry stands in the iteration order. -/
theorem conflictLoop_none_of_mem (sp : Nat → String) (entries : NameSet) (errs : FieldError)
    (k : String) (v : List Nat) (hm : (k, v) ∈ entries) (hl : v.length ≠ 1)
    (hw : writePaths sp v 0 (List.replicate v.length "") = none) :
    conflictLoop sp entries errs = none := by
  induction entries generalizing errs with
  | nil => simp at hm
  | cons kv rest ih =>
    obtain ⟨k1, v1⟩ := kv
    rcases List.mem_cons.mp hm with h1 | h1
    · injection h1 with h2 h3
      subst h2; subst h3
      simp [conflictLoop, hl, hw]
    · simp only [conflictLoop]
      split
      · split
        · rfl
        · exact ih _ h1
      · exact ih _ h1

/-- When every entry holds exactly one position the conflict loop adds nothing. -/
theorem conflictLoop_of_all_single (sp : Nat → String) (entries : NameSet) (errs : FieldError)
    (h : ∀ kv ∈ entries, kv.2.length = 1) : conflictLoop sp entries errs = some errs := by
  induction entries generalizing errs with
  | nil => simp [conflictLoop]
  | cons kv rest ih =>
    obtain ⟨k1, v1⟩ := kv
    have h1 : v1.length = 1 := h (k1, v1) (List.mem_cons_self _ _)
    simp only [conflictLoop, h1, ne_eq, not_true_eq_false, if_false]
    exact ih _ (fun kv hkv => h kv (List.mem_cons_of_mem _ hkv))

/-- What the conflict loop returns, when it returns: the aggregate it was given followed
by multiple-owners errors only, at least one of them unless every entry is single. -/
theorem conflictLoop_some (sp : Nat → String) (entries : NameSet) (errs r : FieldError)
    (h : conflictLoop sp entries errs = some r) :
    ∃ extra, r = errs ++ extra ∧ (∀ e ∈ extra, e.kind = ErrKind.multipleOneOf) ∧
      (extra = [] → ∀ kv ∈ entries, kv.2.length = 1) := by
  induction entries generalizing errs with
  | nil =>
    simp only [conflictLoop, Option.some.injEq] at h
    exact ⟨[], by simp [h], by simp, by simp⟩
  | cons kv rest ih =>
    obtain ⟨k1, v1⟩ := kv
    simp only [conflictLoop] at h
    split at h
    · split at h
      · simp at h
      · rename_i paths hp
        obtain ⟨extra, h1, h2, _⟩ := ih _ h
        refine ⟨ErrMultipleOneOf paths ++ extra, ?_, ?_, ?_⟩
        · simp [h1, Also, List.append_assoc]
        · intro e he
          rcases List.mem_append.mp he with he | he
          · simp only [ErrMultipleOneOf, List.mem_singleton] at he
            simp [he]
          · exact h2 e he
        · intro he
          simp [ErrMultipleOneOf] at he
    · rename_i hl
      obtain ⟨extra, h1, h2, h3⟩ := ih _ h
      refine ⟨extra, h1, h2, ?_⟩
      intro he kv hkv
      rcases List.mem_cons.mp hkv with h4 | h4
      · subst h4; simpa using hl
      · exact h3 he kv h4

/-! ## The shape of the aggregate that `Validate` returns -/

theorem checkApplication_eq (ext : Externals) (b : ServiceBinding) (errs : FieldError) :
    checkApplication ext b errs = errs ++ checkApplication ext b [] := by
  unfold checkApplication
  cases b.Spec.Application with
  | none => simp [Also]
  | some app =>
    by_cases h : app.Namespace = ""
    · simp [Also, h]
    · simp [Also, h]

theorem checkService_eq (ext : Externals) (b : ServiceBinding) (errs : FieldError) :
    checkService ext b errs = errs ++ checkService ext b [] := by
  unfold checkService
  cases b.Spec.Service with
  | none => simp [Also]
  | some svc =>
    by_cases h : svc.Namespace = "" <;> by_cases h2 : svc.Name = "" <;> simp [Also, h, h2]

theorem checkStatus_eq (b : ServiceBinding) (errs : FieldError) :
    checkStatus b errs = errs ++ checkStatus b [] := by
  unfold checkStatus
  split <;> simp [Also]

theorem Validate_unfold (ext : Externals) (eo mo : MapOrder) (b : ServiceBinding) :
    ServiceBinding.Validate ext eo mo b =
      match conflictLoop envPath (eo.iter (envSetOf b)) (errsBeforeEnvConflicts ext b) with
      | none => none
      | some e1 =>
        match conflictLoop mappingPath (mo.iter (mappingSetOf b))
            (e1 ++ mappingItemErrs b.Spec.Mappings 0) with
        | none => none
        | some e2 => some (e2 ++ checkStatus b []) := by
  simp only [ServiceBinding.Validate, envLoop_eq, mappingLoop_eq, envSetOf, mappingSetOf,
    errsBeforeEnvConflicts]
  rw [checkService_eq]
  split
  · rfl
  · split
    · rfl
    · rw [checkStatus_eq]

/-- Whenever `Validate` returns, its aggregate is the concatenation, in this order, of the
application errors, the service errors, the env item errors, the env conflicts, the mapping
item errors, the mapping conflicts and the status error. -/
theorem Validate_some (ext : Externals) (eo mo : MapOrder) (b : ServiceBinding)
    (r : FieldError) (h : ServiceBinding.Validate ext eo mo b = some r) :
    ∃ x1 x2, r = checkApplication ext b [] ++ checkService ext b [] ++
          envItemErrs ext b.Spec.Env 0 ++ x1 ++ mappingItemErrs b.Spec.Mappings 0 ++ x2 ++
          checkStatus b [] ∧
      (∀ e ∈ x1, e.kind = ErrKind.multipleOneOf) ∧
      (∀ e ∈ x2, e.kind = ErrKind.multipleOneOf) ∧
      (x1 = [] → ∀ kv ∈ envSetOf b, kv.2.length = 1) ∧
      (x2 = [] → ∀ kv ∈ mappingSetOf b, kv.2.length = 1) := by
  rw [Validate_unfold] at h
  split at h
  · simp at h
  · rename_i e1 h1
    split at h
    · simp at h
    · rename_i e2 h2
      simp only [Option.some.injEq] at h
      obtain ⟨x1, hx1, hk1, hs1⟩ := conflictLoop_some _ _ _ _ h1
      obtain ⟨x2, hx2, hk2, hs2⟩ := conflictLoop_some _ _ _ _ h2
      refine ⟨x1, x2, ?_, hk1, hk2, ?_, ?_⟩
      · rw [← h, hx2, hx1, errsBeforeEnvConflicts]
      · intro he kv hkv
        exact hs1 he kv ((eo.perm _).mem_iff.mpr hkv)
      · intro he kv hkv
        exact hs2 he kv ((mo.perm _).mem_iff.mpr hkv)

/-- A list of names is duplicate-free exactly when every entry of its name set holds one
position. -/
theorem all_single_iff_nodup (ns : List String) :
    (∀ kv ∈ recordNames ns 0 [], kv.2.length = 1) ↔ ns.Nodup := by
  constructor
  · intro h
    rw [List.nodup_iff_count_eq_one]
    intro a ha
    have := h _ (recordNames_mem ns a ha)
    simpa [positionsFrom_length] using this
  · intro h kv hkv
    obtain ⟨k, v⟩ := kv
    obtain ⟨hk, hv⟩ := recordNames_entry ns k v hkv
    simp only [hv, positionsFrom_length]
    exact List.count_eq_one_of_mem h hk

/-- With duplicate-free env names and mapping names `Validate` returns, and no conflict
is reported. -/
theorem Validate_of_nodup (ext : Externals) (eo mo : MapOrder) (b : ServiceBinding)
    (he : (b.Spec.Env.map EnvVar.Name).Nodup) (hm : (b.Spec.Mappings.map Mapping.Name).Nodup) :
    ServiceBinding.Validate ext eo mo b =
      some (checkApplication ext b [] ++ checkService ext b [] ++
        envItemErrs ext b.Spec.Env 0 ++ mappingItemErrs b.Spec.Mappings 0 ++
        checkStatus b []) := by
  rw [Validate_unfold]
  have h1 : ∀ kv ∈ eo.iter (envSetOf b), kv.2.length = 1 := fun kv hkv =>
    (all_single_iff_nodup _).mpr he kv ((eo.perm _).mem_iff.mp hkv)
  have h2 : ∀ kv ∈ mo.iter (mappingSetOf b), kv.2.length = 1 := fun kv hkv =>
    (all_single_iff_nodup _).mpr hm kv ((mo.perm _).mem_iff.mp hkv)
  rw [conflictLoop_of_all_single _ _ _ h1]
  simp only
  rw [conflictLoop_of_all_single _ _ _ h2]
  simp [errsBeforeEnvConflicts]

/-- An entry of `envSet` whose path loop aborts makes `Validate` abort, in every
iteration order. -/
theorem Validate_none_of_env_entry (ext : Externals) (eo mo : MapOrder) (b : ServiceBinding)
    (k : String) (v : List Nat) (hm : (k, v) ∈ envSetOf b) (hl : v.length ≠ 1)
    (hw : writePaths envPath v 0 (List.replicate v.length "") = none) :
    ServiceBinding.Validate ext eo mo b = none := by
  rw [Validate_unfold,
    conflictLoop_none_of_mem envPath _ _ k v ((eo.perm _).mem_iff.mpr hm) hl hw]

/-- An entry of `mappingSet` whose path loop aborts makes `Validate` abort, in every
iteration order. -/
theorem Validate_none_of_mapping_entry (ext : Externals) (eo mo : MapOrder)
    (b : ServiceBinding) (k : String) (v : List Nat) (hm : (k, v) ∈ mappingSetOf b)
    (hl : v.length ≠ 1)
    (hw : writePaths mappingPath v 0 (List.replicate v.length "") = none) :
    ServiceBinding.Validate ext eo mo b = none := by
  rw [Validate_unfold]
  split
  · rfl
  · rw [conflictLoop_none_of_mem mappingPath _ _ k v ((mo.perm _).mem_iff.mpr hm) hl hw]

theorem ViaField_eq_nil (pre : String) (fe : FieldError) : ViaField pre fe = [] ↔ fe = [] := by
  simp [ViaField]

theorem envItemErrs_eq_nil (ext : Externals) (es : List EnvVar) (i : Nat) :
    envItemErrs ext es i = [] ↔ ∀ e ∈ es, ext.envVarValidate e = [] := by
  induction es generalizing i with
  | nil => simp [envItemErrs]
  | cons e es ih =>
    simp [envItemErrs, ViaFieldIndex, ViaIndex, ViaField_eq_nil, ih]

theorem Mapping.Validate_eq_nil (m : Mapping) : m.Validate = [] ↔ m.Name ≠ "" := by
  unfold Mapping.Validate
  by_cases h : m.Name = "" <;> simp [h, Also, ErrMissingField]

theorem mappingItemErrs_eq_nil (ms : List Mapping) (i : Nat) :
    mappingItemErrs ms i = [] ↔ ∀ m ∈ ms, m.Name ≠ "" := by
  induction ms generalizing i with
  | nil => simp [mappingItemErrs]
  | cons m ms ih =>
    simp [mappingItemErrs, ViaFieldIndex, ViaIndex, ViaField_eq_nil, ih,
      Mapping.Validate_eq_nil]

theorem checkApplication_eq_nil (ext : Externals) (b : ServiceBinding) :
    checkApplication ext b [] = [] ↔
      ∃ app, b.Spec.Application = some app ∧ app.Namespace = "" ∧
        ext.applicationValidate { app with Namespace := "fake" } = [] := by
  unfold checkApplication
  cases b.Spec.Application with
  | none => simp [Also, ErrMissingField]
  | some app =>
    by_cases h : app.Namespace = ""
    · simp [Also, h, ViaField_eq_nil]
    · simp [Also, h, ErrDisallowedFields]

theorem checkService_eq_nil (ext : Externals) (b : ServiceBinding) :
    checkService ext b [] = [] ↔
      ∃ svc, b.Spec.Service = some svc ∧ svc.Namespace = "" ∧ svc.Name ≠ "" ∧
        ext.referenceValidate { svc with Namespace := "fake" } = [] := by
  unfold checkService
  cases b.Spec.Service with
  | none => simp [Also, ErrMissingField]
  | some svc =>
    by_cases h : svc.Namespace = "" <;> by_cases h2 : svc.Name = "" <;>
      simp [Also, h, h2, ViaField_eq_nil, ErrDisallowedFields, ErrMissingField]

theorem checkStatus_eq_nil (b : ServiceBinding) :
    checkStatus b [] = [] ↔ b.Status.Annotations = none := by
  unfold checkStatus
  by_cases h : b.Status.Annotations = none <;> simp [h, Also, ErrDisallowedFields]

/-! ## Lemmas on paths and on membership in the aggregate -/

theorem joinPath_data_starts (pre p : String) : pre.data <+: (joinPath pre p).data := by
  unfold joinPath
  split
  · exact List.prefix_refl _
  · split
    · exact ⟨p.data, by simp⟩
    · exact ⟨".".data ++ p.data, by simp [List.append_assoc]⟩

theorem joinPath_of_index (pre q : String) (t : List Char) (hq : q.data = '[' :: t) :
    (joinPath pre q).data = pre.data ++ q.data := by
  have hne : q ≠ "" := by
    intro e; subst e; simp at hq
  simp [joinPath, hne, hq]

theorem joinPath_of_name (pre q : String) (c : Char) (t : List Char) (hq : q.data = c :: t)
    (hc : c ≠ '[') : (joinPath pre q).data = pre.data ++ '.' :: q.data := by
  have hne : q ≠ "" := by
    intro e; subst e; simp at hq
  have hd : ".".data = ['.'] := rfl
  simp [joinPath, hne, hq, hc, hd]

theorem asIndex_data (i : Nat) : (asIndex i).data = '[' :: ((toString i).data ++ [']']) := by
  have h1 : "[".data = ['['] := rfl
  have h2 : "]".data = [']'] := rfl
  simp [asIndex, h1, h2]

/-- A path re-rooted under `spec.<field>[i]` starts with `spec.<field>[`. -/
theorem item_path_starts (field : String) (c : Char) (t : List Char)
    (hf : field.data = c :: t) (hc : c ≠ '[') (i : Nat) (p : String) :
    ("spec".data ++ '.' :: (field.data ++ ['['])) <+:
      (joinPath "spec" (joinPath field (joinPath (asIndex i) p))).data := by
  obtain ⟨t1, h1⟩ := joinPath_data_starts (asIndex i) p
  rw [asIndex_data] at h1
  have h2 : (joinPath (asIndex i) p).data = '[' :: ((toString i).data ++ [']'] ++ t1) := by
    rw [← h1]; simp
  have h3 := joinPath_of_index field _ _ h2
  have h4 : (joinPath field (joinPath (asIndex i) p)).data =
      c :: (t ++ (joinPath (asIndex i) p).data) := by
    rw [h3, hf]; simp
  rw [joinPath_of_name "spec" _ c _ h4 hc, h3, h2]
  exact ⟨(toString i).data ++ [']'] ++ t1, by simp [List.append_assoc]⟩

theorem HasErrorAt_append (a b : FieldError) (k : ErrKind) (p : String) :
    HasErrorAt (a ++ b) k p ↔ HasErrorAt a k p ∨ HasErrorAt b k p := by
  simp only [HasErrorAt, List.mem_append]
  constructor
  · rintro ⟨e, he | he, h⟩
    · exact Or.inl ⟨e, he, h⟩
    · exact Or.inr ⟨e, he, h⟩
  · rintro (⟨e, he, h⟩ | ⟨e, he, h⟩)
    · exact ⟨e, Or.inl he, h⟩
    · exact ⟨e, Or.inr he, h⟩

theorem HasErrorAt_nil (k : ErrKind) (p : String) : ¬ HasErrorAt [] k p := by
  simp [HasErrorAt]

theorem HasErrorAt_singleton (k0 k : ErrKind) (ps : List String) (p : String) :
    HasErrorAt [{ kind := k0, paths := ps }] k p ↔ k0 = k ∧ p ∈ ps := by
  simp [HasErrorAt]

theorem HasErrorAt_ViaField (pre : String) (fe : FieldError) (k : ErrKind) (p : String) :
    HasErrorAt (ViaField pre fe) k p ↔
      ∃ e ∈ fe, e.kind = k ∧ ∃ q ∈ e.paths, joinPath pre q = p := by
  simp only [HasErrorAt, ViaField, List.mem_map]
  constructor
  · rintro ⟨e, ⟨e0, he0, rfl⟩, hk, hp⟩
    exact ⟨e0, he0, hk, by simpa using hp⟩
  · rintro ⟨e0, he0, hk, hp⟩
    exact ⟨_, ⟨e0, he0, rfl⟩, hk, by simpa using hp⟩

theorem HasErrorAt_ViaField_starts (pre : String) (fe : FieldError) (k : ErrKind) (p : String)
    (h : HasErrorAt (ViaField pre fe) k p) : pre.data <+: p.data := by
  obtain ⟨e, _, _, q, _, hq⟩ := (HasErrorAt_ViaField pre fe k p).mp h
  rw [← hq]
  exact joinPath_data_starts pre q

theorem HasErrorAt_of_kind (x : FieldError) (k0 k : ErrKind) (p : String)
    (hx : ∀ e ∈ x, e.kind = k0) (h : HasErrorAt x k p) : k = k0 := by
  obtain ⟨e, he, hk, _⟩ := h
  rw [← hk]; exact hx e he

theorem mem_ViaField (pre : String) (fe : FieldError) (e : FieldErr) :
    e ∈ ViaField pre fe ↔
      ∃ e0 ∈ fe, e = { kind := e0.kind, paths := e0.paths.map (joinPath pre) } := by
  simp only [ViaField, List.mem_map]
  constructor
  · rintro ⟨e0, he0, rfl⟩; exact ⟨e0, he0, rfl⟩
  · rintro ⟨e0, he0, rfl⟩; exact ⟨e0, he0, rfl⟩

theorem ViaField_kind (pre : String) (fe : FieldError) (k0 : ErrKind)
    (h : ∀ e ∈ fe, e.kind = k0) : ∀ e ∈ ViaField pre fe, e.kind = k0 := by
  intro e he
  obtain ⟨e0, he0, rfl⟩ := (mem_ViaField pre fe e).mp he
  exact h e0 he0

/-- A path of an error re-rooted under `spec.<field>[i]` starts with `spec.<field>[`. -/
theorem HasErrorAt_item_starts (field : String) (c : Char) (t : List Char)
    (hf : field.data = c :: t) (hc : c ≠ '[') (i : Nat) (fe : FieldError) (k : ErrKind)
    (p : String) (h : HasErrorAt (ViaField "spec" (ViaFieldIndex field i fe)) k p) :
    ("spec".data ++ '.' :: (field.data ++ ['['])) <+: p.data := by
  obtain ⟨e1, he1, _, q1, hq1, rfl⟩ := (HasErrorAt_ViaField _ _ k p).mp h
  obtain ⟨e2, he2, rfl⟩ := (mem_ViaField _ _ e1).mp he1
  obtain ⟨q2, hq2, rfl⟩ := List.mem_map.mp hq1
  obtain ⟨e3, _, rfl⟩ := (mem_ViaField _ _ e2).mp he2
  obtain ⟨q3, _, rfl⟩ := List.mem_map.mp hq2
  exact item_path_starts field c t hf hc i q3

theorem HasErrorAt_envItemErrs (ext : Externals) (es : List EnvVar) (i : Nat) (k : ErrKind)
    (p : String) (h : HasErrorAt (envItemErrs ext es i) k p) : "spec.env[".data <+: p.data := by
  induction es generalizing i with
  | nil => exact absurd h (HasErrorAt_nil k p)
  | cons e es ih =>
    simp only [envItemErrs] at h
    rcases (HasErrorAt_append _ _ k p).mp h with h1 | h1
    · exact HasErrorAt_item_starts "env" 'e' ['n', 'v'] rfl (by decide) i _ k p h1
    · exact ih _ h1

theorem Mapping.Validate_kind (m : Mapping) : ∀ e ∈ m.Validate, e.kind = ErrKind.missingField := by
  intro e he
  unfold Mapping.Validate at he
  by_cases hn : m.Name = ""
  · simp only [hn, if_true, Also, ErrMissingField, List.nil_append, List.mem_singleton] at he
    rw [he]
  · simp [hn] at he

theorem HasErrorAt_mappingItemErrs (ms : List Mapping) (i : Nat) (k : ErrKind) (p : String)
    (h : HasErrorAt (mappingItemErrs ms i) k p) :
    k = ErrKind.missingField ∧ "spec.mappings[".data <+: p.data := by
  induction ms generalizing i with
  | nil => exact absurd h (HasErrorAt_nil k p)
  | cons m ms ih =>
    simp only [mappingItemErrs] at h
    rcases (HasErrorAt_append _ _ k p).mp h with h1 | h1
    · refine ⟨?_, HasErrorAt_item_starts "mappings" 'm' _ rfl (by decide) i _ k p h1⟩
      refine HasErrorAt_of_kind _ _ k p ?_ h1
      exact ViaField_kind _ _ _ (ViaField_kind _ _ _ (ViaField_kind _ _ _ m.Validate_kind))
    · exact ih _ h1

theorem HasErrorAt_cons (e : FieldErr) (rest : FieldError) (k : ErrKind) (p : String) :
    HasErrorAt (e :: rest) k p ↔ (k = e.kind ∧ p ∈ e.paths) ∨ HasErrorAt rest k p := by
  simp only [HasErrorAt, List.mem_cons]
  constructor
  · rintro ⟨e1, rfl | he, hk, hp⟩
    · exact Or.inl ⟨hk.symm, hp⟩
    · exact Or.inr ⟨e1, he, hk, hp⟩
  · rintro (⟨hk, hp⟩ | ⟨e1, he, hk, hp⟩)
    · exact ⟨e, Or.inl rfl, hk.symm, hp⟩
    · exact ⟨e1, Or.inr he, hk, hp⟩

/-- The errors of the application step. -/
theorem HasErrorAt_checkApplication (ext : Externals) (b : ServiceBinding) (k : ErrKind)
    (p : String) :
    HasErrorAt (checkApplication ext b []) k p ↔
      (b.Spec.Application = none ∧ k = ErrKind.missingField ∧ p = "spec.application") ∨
      ∃ app, b.Spec.Application = some app ∧
        (HasErrorAt (ViaField "spec.application"
            (ext.applicationValidate { app with Namespace := "fake" })) k p ∨
          (app.Namespace ≠ "" ∧ k = ErrKind.disallowedField ∧
            p = "spec.application.namespace")) := by
  unfold checkApplication
  cases b.Spec.Application with
  | none =>
    simp [Also, ErrMissingField, HasErrorAt_cons, HasErrorAt_nil]
  | some app =>
    by_cases hn : app.Namespace = ""
    · simp [Also, hn]
    · simp [Also, hn, HasErrorAt_append, ErrDisallowedFields, HasErrorAt_cons, HasErrorAt_nil]

/-- The errors of the service step. -/
theorem HasErrorAt_checkService (ext : Externals) (b : ServiceBinding) (k : ErrKind)
    (p : String) :
    HasErrorAt (checkService ext b []) k p ↔
      (b.Spec.Service = none ∧ k = ErrKind.missingField ∧ p = "spec.service") ∨
      ∃ svc, b.Spec.Service = some svc ∧
        (HasErrorAt (ViaField "spec.service"
            (ext.referenceValidate { svc with Namespace := "fake" })) k p ∨
          (svc.Namespace ≠ "" ∧ k = ErrKind.disallowedField ∧ p = "spec.service.namespace") ∨
          (svc.Name = "" ∧ k = ErrKind.missingField ∧ p = "spec.service.name")) := by
  unfold checkService
  cases b.Spec.Service with
  | none =>
    simp [Also, ErrMissingField, HasErrorAt_cons, HasErrorAt_nil]
  | some svc =>
    by_cases hn : svc.Namespace = "" <;> by_cases hm : svc.Name = "" <;>
      simp [Also, hn, hm, HasErrorAt_append, ErrDisallowedFields, ErrMissingField,
        HasErrorAt_cons, HasErrorAt_nil]

/-- The errors of the status step. -/
theorem HasErrorAt_checkStatus (b : ServiceBinding) (k : ErrKind) (p : String) :
    HasErrorAt (checkStatus b []) k p ↔
      b.Status.Annotations ≠ none ∧ k = ErrKind.disallowedField ∧ p = "status.annotations" := by
  unfold checkStatus
  by_cases h : b.Status.Annotations = none
  · simp [h, HasErrorAt_nil]
  · simp [h, Also, ErrDisallowedFields, HasErrorAt_cons, HasErrorAt_nil]

/-- Where a disallowed-field error of the returned aggregate can come from: the application
step, the service step, the env item validators, or the status step. -/
theorem Validate_disallowed_source (ext : Externals) (eo mo : MapOrder) (b : ServiceBinding)
    (r : FieldError) (h : ServiceBinding.Validate ext eo mo b = some r) (p : String) :
    HasErrorAt r ErrKind.disallowedField p ↔
      HasErrorAt (checkApplication ext b []) ErrKind.disallowedField p ∨
      HasErrorAt (checkService ext b []) ErrKind.disallowedField p ∨
      HasErrorAt (envItemErrs ext b.Spec.Env 0) ErrKind.disallowedField p ∨
      HasErrorAt (checkStatus b []) ErrKind.disallowedField p := by
  obtain ⟨x1, x2, hr, hk1, hk2, _, _⟩ := Validate_some ext eo mo b r h
  have n1 : ¬ HasErrorAt x1 ErrKind.disallowedField p := fun hx =>
    absurd (HasErrorAt_of_kind x1 _ _ p hk1 hx) (by decide)
  have n2 : ¬ HasErrorAt x2 ErrKind.disallowedField p := fun hx =>
    absurd (HasErrorAt_of_kind x2 _ _ p hk2 hx) (by decide)
  have n3 : ¬ HasErrorAt (mappingItemErrs b.Spec.Mappings 0) ErrKind.disallowedField p :=
    fun hx => absurd (HasErrorAt_mappingItemErrs _ _ _ p hx).1 (by decide)
  rw [hr]
  simp only [HasErrorAt_append, n1, n2, n3, or_false]
  tauto

/-- A disallowed-field error at `spec.application.namespace` in the returned aggregate comes
from the application step alone: from the namespace check of the core, or from the external
validator applied to the placeholder copy. -/
theorem Validate_application_namespace_source (ext : Externals) (eo mo : MapOrder)
    (b : ServiceBinding) (r : FieldError) (h : ServiceBinding.Validate ext eo mo b = some r) :
    HasErrorAt r ErrKind.disallowedField "spec.application.namespace" ↔
      ∃ app, b.Spec.Application = some app ∧
        (HasErrorAt (ViaField "spec.application"
            (ext.applicationValidate { app with Namespace := "fake" }))
            ErrKind.disallowedField "spec.application.namespace" ∨ app.Namespace ≠ "") := by
  rw [Validate_disallowed_source ext eo mo b r h, HasErrorAt_checkApplication,
    HasErrorAt_checkService, HasErrorAt_checkStatus]
  have n1 : ∀ fe, ¬ HasErrorAt (ViaField "spec.service" fe) ErrKind.disallowedField
      "spec.application.namespace" := fun fe hx =>
    absurd (HasErrorAt_ViaField_starts _ _ _ _ hx) (by decide)
  have n2 : ¬ HasErrorAt (envItemErrs ext b.Spec.Env 0) ErrKind.disallowedField
      "spec.application.namespace" := fun hx =>
    absurd (HasErrorAt_envItemErrs _ _ _ _ _ hx) (by decide)
  have d1 : ¬ ("spec.application.namespace" = "spec.service.namespace") := by decide
  have d2 : ¬ ("spec.application.namespace" = "status.annotations") := by decide
  have d3 : ¬ (ErrKind.disallowedField = ErrKind.missingField) := by decide
  simp only [n1, n2, d1, d2, d3, and_false, false_and, false_or, or_false, exists_false,
    and_true, true_and]

/-- A disallowed-field error at `spec.service.namespace` in the returned aggregate comes
from the service step alone. -/
theorem Validate_service_namespace_source (ext : Externals) (eo mo : MapOrder)
    (b : ServiceBinding) (r : FieldError) (h : ServiceBinding.Validate ext eo mo b = some r) :
    HasErrorAt r ErrKind.disallowedField "spec.service.namespace" ↔
      ∃ svc, b.Spec.Service = some svc ∧
        (HasErrorAt (ViaField "spec.service"
            (ext.referenceValidate { svc with Namespace := "fake" }))
            ErrKind.disallowedField "spec.service.namespace" ∨ svc.Namespace ≠ "") := by
  rw [Validate_disallowed_source ext eo mo b r h, HasErrorAt_checkApplication,
    HasErrorAt_checkService, HasErrorAt_checkStatus]
  have n1 : ∀ fe, ¬ HasErrorAt (ViaField "spec.application" fe) ErrKind.disallowedField
      "spec.service.namespace" := fun fe hx =>
    absurd (HasErrorAt_ViaField_starts _ _ _ _ hx) (by decide)
  have n2 : ¬ HasErrorAt (envItemErrs ext b.Spec.Env 0) ErrKind.disallowedField
      "spec.service.namespace" := fun hx =>
    absurd (HasErrorAt_envItemErrs _ _ _ _ _ hx) (by decide)
  have d1 : ¬ ("spec.service.namespace" = "spec.application.namespace") := by decide
  have d2 : ¬ ("spec.service.namespace" = "status.annotations") := by decide
  have d3 : ¬ (ErrKind.disallowedField = ErrKind.missingField) := by decide
  simp only [n1, n2, d1, d2, d3, and_false, false_and, false_or, or_false, exists_false,
    and_true, true_and]

/-- Whenever `Validate` returns on a descriptor without application, the aggregate holds
the missing-field error at `spec.application`. -/
theorem Validate_reports_missing_application (ext : Externals) (eo mo : MapOrder)
    (b : ServiceBinding) (r : FieldError) (h : ServiceBinding.Validate ext eo mo b = some r)
    (ha : b.Spec.Application = none) :
    HasErrorAt r ErrKind.missingField "spec.application" := by
  obtain ⟨x1, x2, hr, _⟩ := Validate_some ext eo mo b r h
  rw [hr]
  simp only [HasErrorAt_append]
  exact Or.inl (Or.inl (Or.inl (Or.inl (Or.inl (Or.inl
    ((HasErrorAt_checkApplication ext b _ _).mpr (Or.inl ⟨ha, rfl, rfl⟩)))))))

/-! ## The claims -/

/-- C1 (the code departs from it): `Validate` does not complete on every descriptor. With
env names `A`, `B`, `A` the write `paths[2]` of the env loop falls outside the slice of
length 2, and with mapping names `M`, `N`, `M` so does the one of the mappings loop; the
call aborts whatever the external validators and the map iteration orders are. -/
theorem Validate_aborts_on_duplicate_apart (ext : Externals) (eo mo : MapOrder) :
    writePaths envPath [0, 2] 0 (List.replicate 2 "") = none ∧
    ServiceBinding.Validate ext eo mo envDuplicateApart = none ∧
    writePaths mappingPath [0, 2] 0 (List.replicate 2 "") = none ∧
    ServiceBinding.Validate ext eo mo mappingDuplicateApart = none := by
  refine ⟨by decide, ?_, by decide, ?_⟩
  · exact Validate_none_of_env_entry ext eo mo envDuplicateApart "A" [0, 2]
      (by decide) (by decide) (by decide)
  · exact Validate_none_of_mapping_entry ext eo mo mappingDuplicateApart "M" [0, 2]
      (by decide) (by decide) (by decide)

/-- C2 (the code departs from it): with env names `A`, `X`, `X` the name `X` is held at
positions 1 and 2, yet `Validate` aborts instead of returning an aggregate with a
multiple-owners error over `spec.env[1].name` and `spec.env[2].name`. -/
theorem Validate_env_duplicate_late_aborts (ext : Externals) (eo mo : MapOrder) :
    ServiceBinding.Validate ext eo mo envDuplicateLate = none ∧
    ¬ ∃ r, ServiceBinding.Validate ext eo mo envDuplicateLate = some r ∧
      ∃ e ∈ r, e.kind = ErrKind.multipleOneOf ∧
        "spec.env[1].name" ∈ e.paths ∧ "spec.env[2].name" ∈ e.paths := by
  have h : ServiceBinding.Validate ext eo mo envDuplicateLate = none :=
    Validate_none_of_env_entry ext eo mo envDuplicateLate "X" [1, 2]
      (by decide) (by decide) (by decide)
  refine ⟨h, ?_⟩
  rintro ⟨r, hr, _⟩
  rw [h] at hr
  cases hr

/-- C3 (the code departs from it): with mapping names `M`, `N`, `N` the name `N` is held
by two mappings, yet `Validate` aborts and no multiple-owners error for `N` is returned. -/
theorem Validate_mapping_duplicate_late_aborts (ext : Externals) (eo mo : MapOrder) :
    mappingSetOf mappingDuplicateLate = [("M", [0]), ("N", [1, 2])] ∧
    ServiceBinding.Validate ext eo mo mappingDuplicateLate = none := by
  refine ⟨by decide, ?_⟩
  exact Validate_none_of_mapping_entry ext eo mo mappingDuplicateLate "N" [1, 2]
    (by decide) (by decide) (by decide)

/-- C4 (the code departs from it): with no application and env names `X`, `Y`, `Y`,
`Validate` aborts, so the missing-field error at `spec.application` is not reported. -/
theorem Validate_missing_application_not_reported (ext : Externals) (eo mo : MapOrder) :
    noApplicationEnvDuplicate.Spec.Application = none ∧
    ServiceBinding.Validate ext eo mo noApplicationEnvDuplicate = none := by
  refine ⟨rfl, ?_⟩
  exact Validate_none_of_env_entry ext eo mo noApplicationEnvDuplicate "Y" [1, 2]
    (by decide) (by decide) (by decide)

/-- C5: a descriptor with both references present, without namespace, accepted by the
external validator on the placeholder copy, a non-empty service name, env items accepted by
their validator, pairwise distinct env names, non-empty and pairwise distinct mapping names
and no status annotations validates to the nil aggregate, in every iteration order. -/
theorem Validate_valid_descriptor (ext : Externals) (eo mo : MapOrder) (b : ServiceBinding)
    (app : ApplicationReference) (svc : Reference)
    (hApp : b.Spec.Application = some app) (hSvc : b.Spec.Service = some svc)
    (hAppNs : app.Namespace = "") (hSvcNs : svc.Namespace = "") (hSvcName : svc.Name ≠ "")
    (hAppExt : ext.applicationValidate { app with Namespace := "fake" } = [])
    (hSvcExt : ext.referenceValidate { svc with Namespace := "fake" } = [])
    (hEnvExt : ∀ e ∈ b.Spec.Env, ext.envVarValidate e = [])
    (hEnvNames : (b.Spec.Env.map EnvVar.Name).Nodup)
    (hMapName : ∀ m ∈ b.Spec.Mappings, m.Name ≠ "")
    (hMapNames : (b.Spec.Mappings.map Mapping.Name).Nodup)
    (hStatus : b.Status.Annotations = none) :
    ServiceBinding.Validate ext eo mo b = some [] := by
  rw [Validate_of_nodup ext eo mo b hEnvNames hMapNames,
    (checkApplication_eq_nil ext b).mpr ⟨app, hApp, hAppNs, hAppExt⟩,
    (checkService_eq_nil ext b).mpr ⟨svc, hSvc, hSvcNs, hSvcName, hSvcExt⟩,
    (envItemErrs_eq_nil ext _ 0).mpr hEnvExt, (mappingItemErrs_eq_nil _ 0).mpr hMapName,
    (checkStatus_eq_nil b).mpr hStatus]
  rfl

theorem Validate_valid_descriptor_witness :
    ServiceBinding.Validate sampleExternals MapOrder.insertion MapOrder.reversed
      validBinding = some [] :=
  Validate_valid_descriptor sampleExternals MapOrder.insertion MapOrder.reversed validBinding
    sampleApplication sampleService rfl rfl rfl rfl (by decide) (by decide) (by decide)
    (by decide) (by decide) (by decide) (by decide) rfl

/-- C6: when `Validate` returns the nil aggregate, the descriptor satisfies the invariants:
both references are present and carry no namespace, the service name is non-empty, env
names are pairwise distinct, mapping names are non-empty and pairwise distinct, and
status annotations are absent. -/
theorem Validate_nil_invariants (ext : Externals) (eo mo : MapOrder) (b : ServiceBinding)
    (h : ServiceBinding.Validate ext eo mo b = some []) :
    (∃ app, b.Spec.Application = some app ∧ app.Namespace = "") ∧
    (∃ svc, b.Spec.Service = some svc ∧ svc.Namespace = "" ∧ svc.Name ≠ "") ∧
    (b.Spec.Env.map EnvVar.Name).Nodup ∧
    (b.Spec.Mappings.map Mapping.Name).Nodup ∧
    (∀ m ∈ b.Spec.Mappings, m.Name ≠ "") ∧
    b.Status.Annotations = none := by
  obtain ⟨x1, x2, hr, _, _, hs1, hs2⟩ := Validate_some ext eo mo b [] h
  have hr2 := hr.symm
  simp only [List.append_eq_nil] at hr2
  obtain ⟨⟨⟨⟨⟨⟨hA, hS⟩, _⟩, hx1⟩, hM⟩, hx2⟩, hSt⟩ := hr2
  obtain ⟨app, ha1, ha2, _⟩ := (checkApplication_eq_nil ext b).mp hA
  obtain ⟨svc, hv1, hv2, hv3, _⟩ := (checkService_eq_nil ext b).mp hS
  exact ⟨⟨app, ha1, ha2⟩, ⟨svc, hv1, hv2, hv3⟩, (all_single_iff_nodup _).mp (hs1 hx1),
    (all_single_iff_nodup _).mp (hs2 hx2), (mappingItemErrs_eq_nil _ 0).mp hM,
    (checkStatus_eq_nil b).mp hSt⟩

theorem Validate_nil_invariants_witness :
    (∃ app, validBinding.Spec.Application = some app ∧ app.Namespace = "") ∧
    (∃ svc, validBinding.Spec.Service = some svc ∧ svc.Namespace = "" ∧ svc.Name ≠ "") ∧
    (validBinding.Spec.Env.map EnvVar.Name).Nodup ∧
    (validBinding.Spec.Mappings.map Mapping.Name).Nodup ∧
    (∀ m ∈ validBinding.Spec.Mappings, m.Name ≠ "") ∧
    validBinding.Status.Annotations = none :=
  Validate_nil_invariants sampleExternals MapOrder.reversed MapOrder.insertion validBinding
    (by decide)

/-- C7: `SetDefaults` is idempotent, also when the resource name and `spec.name` are both
empty. -/
theorem SetDefaults_idempotent (b : ServiceBinding) :
    b.SetDefaults.SetDefaults = b.SetDefaults := by
  unfold ServiceBinding.SetDefaults
  by_cases h : b.Spec.Name = ""
  · by_cases h2 : b.ObjectMeta.Name = "" <;> simp [h, h2]
  · simp [h]

/-- C8: after `SetDefaults`, `spec.name` is the resource name when it was empty and its
previous value otherwise; resource name `foo` with empty `spec.name` gives `foo`, and
`spec.name` `bar` stays `bar`. -/
theorem SetDefaults_spec_name :
    (∀ b : ServiceBinding, b.SetDefaults.Spec.Name =
      if b.Spec.Name = "" then b.ObjectMeta.Name else b.Spec.Name) ∧
    (mkBinding "foo" "" none none [] []).SetDefaults.Spec.Name = "foo" ∧
    (mkBinding "foo" "bar" none none [] []).SetDefaults.Spec.Name = "bar" := by
  refine ⟨?_, by decide, by decide⟩
  intro b
  unfold ServiceBinding.SetDefaults
  by_cases h : b.Spec.Name = "" <;> simp [h]

/-- C9: `SetDefaults` changes no field other than `spec.name`: the envelope, the status and
every other field of the spec are as before. -/
theorem SetDefaults_frame (b : ServiceBinding) :
    b.SetDefaults.TypeMeta = b.TypeMeta ∧
    b.SetDefaults.ObjectMeta = b.ObjectMeta ∧
    b.SetDefaults.Status = b.Status ∧
    b.SetDefaults.Spec.Type_ = b.Spec.Type_ ∧
    b.SetDefaults.Spec.Provider = b.Spec.Provider ∧
    b.SetDefaults.Spec.Application = b.Spec.Application ∧
    b.SetDefaults.Spec.Service = b.Spec.Service ∧
    b.SetDefaults.Spec.Env = b.Spec.Env ∧
    b.SetDefaults.Spec.Mappings = b.Spec.Mappings ∧
    b.SetDefaults = { b with Spec := { b.Spec with Name := b.SetDefaults.Spec.Name } } := by
  unfold ServiceBinding.SetDefaults
  by_cases h : b.Spec.Name = "" <;> simp [h]

/-- C10: on a descriptor on which `Validate` returns, and provided the external validator
does not itself report a disallowed namespace for the placeholder copy, the aggregate holds
a disallowed-field error at `spec.application.namespace` exactly when the application is
present with a non-empty namespace, and one at `spec.service.namespace` exactly when the
service is present with a non-empty namespace. -/
theorem Validate_namespace_disallowed (ext : Externals) (eo mo : MapOrder)
    (b : ServiceBinding) (r : FieldError)
    (h : ServiceBinding.Validate ext eo mo b = some r)
    (hApp : ∀ app, b.Spec.Application = some app →
      ¬ HasErrorAt (ViaField "spec.application"
          (ext.applicationValidate { app with Namespace := "fake" }))
        ErrKind.disallowedField "spec.application.namespace")
    (hSvc : ∀ svc, b.Spec.Service = some svc →
      ¬ HasErrorAt (ViaField "spec.service"
          (ext.referenceValidate { svc with Namespace := "fake" }))
        ErrKind.disallowedField "spec.service.namespace") :
    (HasErrorAt r ErrKind.disallowedField "spec.application.namespace" ↔
      ∃ app, b.Spec.Application = some app ∧ app.Namespace ≠ "") ∧
    (HasErrorAt r ErrKind.disallowedField "spec.service.namespace" ↔
      ∃ svc, b.Spec.Service = some svc ∧ svc.Namespace ≠ "") := by
  rw [Validate_application_namespace_source ext eo mo b r h,
    Validate_service_namespace_source ext eo mo b r h]
  constructor
  · constructor
    · rintro ⟨app, ha, hx | hx⟩
      · exact absurd hx (hApp app ha)
      · exact ⟨app, ha, hx⟩
    · rintro ⟨app, ha, hx⟩
      exact ⟨app, ha, Or.inr hx⟩
  · constructor
    · rintro ⟨svc, ha, hx | hx⟩
      · exact absurd hx (hSvc svc ha)
      · exact ⟨svc, ha, hx⟩
    · rintro ⟨svc, ha, hx⟩
      exact ⟨svc, ha, Or.inr hx⟩

theorem Validate_namespace_disallowed_witness :
    (HasErrorAt [{ kind := ErrKind.disallowedField, paths := ["spec.application.namespace"] }]
        ErrKind.disallowedField "spec.application.namespace" ↔
      ∃ app, applicationWithNamespace.Spec.Application = some app ∧ app.Namespace ≠ "") ∧
    (HasErrorAt [{ kind := ErrKind.disallowedField, paths := ["spec.application.namespace"] }]
        ErrKind.disallowedField "spec.service.namespace" ↔
      ∃ svc, applicationWithNamespace.Spec.Service = some svc ∧ svc.Namespace ≠ "") :=
  Validate_namespace_disallowed sampleExternals MapOrder.insertion MapOrder.insertion
    applicationWithNamespace
    [{ kind := ErrKind.disallowedField, paths := ["spec.application.namespace"] }]
    (by decide)
    (fun app ha => by cases ha; decide)
    (fun svc hs => by cases hs; decide)

/-! ## Lemmas on the path loop and on positions -/

theorem writePaths_none_of_mem (sp : Nat → String) (v : List Nat) (pi : Nat)
    (paths : List String) (i : Nat) (hi : i ∈ v) (hl : paths.length ≤ i) :
    writePaths sp v pi paths = none := by
  induction v generalizing pi paths with
  | nil => simp at hi
  | cons j v ih =>
    simp only [writePaths]
    split
    · rename_i hj
      rcases List.mem_cons.mp hi with h | h
      · omega
      · exact ih _ _ h (by simpa using hl)
    · rfl

/-- The path loop over the positions `a, a+1, ..`, started at counter `a`, fills the slice
with the paths of these positions. -/
theorem writePaths_range' (sp : Nat → String) (n a : Nat) (done : List String)
    (ha : done.length = a) :
    writePaths sp (List.range' a n) a (done ++ List.replicate n "") =
      some (done ++ (List.range' a n).map sp) := by
  induction n generalizing a done with
  | zero => simp [writePaths]
  | succ n ih =>
    have hlt : a < (done ++ List.replicate (n + 1) "").length := by
      simp [ha]
    simp only [List.range'_succ, writePaths, hlt, if_true, List.map_cons]
    have hset : (done ++ List.replicate (n + 1) "").set a (sp a) =
        (done ++ [sp a]) ++ List.replicate n "" := by
      rw [List.set_append_right _ _ (by omega)]
      simp [ha, List.replicate_succ]
    rw [hset, ih (a + 1) (done ++ [sp a]) (by simp [ha])]
    simp

theorem writePaths_range (sp : Nat → String) (n : Nat) :
    writePaths sp (List.range n) 0 (List.replicate n "") = some ((List.range n).map sp) := by
  have h := writePaths_range' sp n 0 [] rfl
  simpa [List.range_eq_range'] using h

theorem mem_positionsFrom (x : String) (ns : List String) (j i : Nat) :
    i ∈ positionsFrom x ns j ↔ j ≤ i ∧ ns[i - j]? = some x := by
  induction ns generalizing j with
  | nil => simp [positionsFrom]
  | cons n ns ih =>
    have key : ∀ i, (j + 1 ≤ i ∧ ns[i - (j + 1)]? = some x) ↔
        (j < i ∧ (n :: ns)[i - j]? = some x) := by
      intro i
      constructor
      · rintro ⟨h1, h2⟩
        have e : i - j = (i - (j + 1)) + 1 := by omega
        exact ⟨h1, by rw [e]; simpa using h2⟩
      · rintro ⟨h1, h2⟩
        have e : i - j = (i - (j + 1)) + 1 := by omega
        rw [e] at h2
        exact ⟨h1, by simpa using h2⟩
    by_cases hx : n = x
    · subst hx
      simp only [positionsFrom, if_true, List.mem_cons, ih, key]
      constructor
      · rintro (h | ⟨h1, h2⟩)
        · subst h; simp
        · exact ⟨by omega, h2⟩
      · rintro ⟨h1, h2⟩
        by_cases hij : i = j
        · exact Or.inl hij
        · exact Or.inr ⟨by omega, h2⟩
    · simp only [positionsFrom, hx, if_false, ih, key]
      constructor
      · rintro ⟨h1, h2⟩; exact ⟨by omega, h2⟩
      · rintro ⟨h1, h2⟩
        have hij : i ≠ j := by
          intro e; subst e
          simp [hx] at h2
        exact ⟨by omega, h2⟩

theorem positionsFrom_sorted (x : String) (ns : List String) (j : Nat) :
    (positionsFrom x ns j).Sorted (· < ·) := by
  induction ns generalizing j with
  | nil => simp [positionsFrom]
  | cons n ns ih =>
    by_cases hx : n = x
    · simp only [positionsFrom, hx, if_true, List.sorted_cons]
      refine ⟨?_, ih _⟩
      intro b hb
      have := ((mem_positionsFrom x ns (j + 1) b).mp hb).1
      omega
    · simp only [positionsFrom, hx, if_false]
      exact ih _

/-- A strictly increasing list of numbers that all lie below its length is `0, 1, ..`. -/
theorem eq_range_of_sorted_of_lt (v : List Nat) (hs : v.Sorted (· < ·))
    (hb : ∀ i ∈ v, i < v.length) : v = List.range v.length := by
  have hsub : v ⊆ List.range v.length := fun i hi => List.mem_range.mpr (hb i hi)
  have hperm : v.Perm (List.range v.length) :=
    (List.subperm_of_subset hs.nodup hsub).perm_of_length_le (by simp)
  exact List.eq_of_perm_of_sorted hperm hs (List.sorted_lt_range _)

theorem occupiesFirst_iff (ns : List String) (x : String) :
    OccupiesFirst ns x ↔ positionsFrom x ns 0 = List.range (ns.count x) := by
  constructor
  · intro h
    have hb : ∀ i ∈ positionsFrom x ns 0, i < (positionsFrom x ns 0).length := by
      intro i hi
      rw [positionsFrom_length]
      exact (h i).mp (by simpa using ((mem_positionsFrom x ns 0 i).mp hi).2)
    have := eq_range_of_sorted_of_lt _ (positionsFrom_sorted x ns 0) hb
    rwa [positionsFrom_length] at this
  · intro h i
    have := mem_positionsFrom x ns 0 i
    rw [h, List.mem_range] at this
    simpa using this.symm

theorem OccupiesFirst.head (ns : List String) (x : String) (h : OccupiesFirst ns x)
    (hc : 1 ≤ ns.count x) : ns.head? = some x := by
  have := (h 0).mpr (by omega)
  cases ns with
  | nil => simp at this
  | cons n ns => simpa using this

/-- The path loop on the entry of `x`: it finishes exactly when `x` occupies the first
positions, and then yields the paths of these positions in increasing order. -/
theorem writePaths_entry (sp : Nat → String) (ns : List String) (x : String) :
    writePaths sp (positionsFrom x ns 0) 0
        (List.replicate (positionsFrom x ns 0).length "") =
      if positionsFrom x ns 0 = List.range (ns.count x) then
        some ((List.range (ns.count x)).map sp)
      else none := by
  by_cases h : positionsFrom x ns 0 = List.range (ns.count x)
  · rw [if_pos h, positionsFrom_length, h]
    exact writePaths_range sp _
  · rw [if_neg h]
    have hex : ∃ i ∈ positionsFrom x ns 0, (positionsFrom x ns 0).length ≤ i := by
      by_contra hno
      apply h
      have hb : ∀ i ∈ positionsFrom x ns 0, i < (positionsFrom x ns 0).length := by
        intro i hi
        by_contra hlt
        exact hno ⟨i, hi, by omega⟩
      have := eq_range_of_sorted_of_lt _ (positionsFrom_sorted x ns 0) hb
      rwa [positionsFrom_length] at this
    obtain ⟨i, hi, hle⟩ := hex
    exact writePaths_none_of_mem sp _ 0 _ i hi (by simpa using hle)

/-- A conflict loop over entries with distinct keys, one of which holds several positions
while every other holds one, adds the error of that entry. -/
theorem conflictLoop_one_conflict (sp : Nat → String) (l : NameSet) (errs : FieldError)
    (x : String) (v : List Nat) (paths : List String)
    (hn : (l.map Prod.fst).Nodup) (hm : (x, v) ∈ l) (hl : v.length ≠ 1)
    (hw : writePaths sp v 0 (List.replicate v.length "") = some paths)
    (hs : ∀ kv ∈ l, kv.1 ≠ x → kv.2.length = 1) :
    conflictLoop sp l errs = some (errs ++ ErrMultipleOneOf paths) := by
  induction l generalizing errs with
  | nil => simp at hm
  | cons kv rest ih =>
    obtain ⟨k1, v1⟩ := kv
    simp only [List.map_cons, List.nodup_cons] at hn
    by_cases hk : k1 = x
    · subst hk
      have hv : v1 = v := by
        rcases List.mem_cons.mp hm with h | h
        · injection h with _ h2; exact h2.symm
        · exact absurd (List.mem_map.mpr ⟨(k1, v), h, rfl⟩) hn.1
      subst hv
      have hrest : ∀ kv ∈ rest, kv.2.length = 1 := by
        intro kv hkv
        refine hs kv (List.mem_cons_of_mem _ hkv) ?_
        intro e
        exact hn.1 (List.mem_map.mpr ⟨kv, hkv, e⟩)
      simp only [conflictLoop, hl, ne_eq, not_false_eq_true, if_true, hw]
      rw [conflictLoop_of_all_single sp rest _ hrest]
      rfl
    · have h1 : v1.length = 1 := hs (k1, v1) (List.mem_cons_self _ _) hk
      have hm2 : (x, v) ∈ rest := by
        rcases List.mem_cons.mp hm with h | h
        · injection h with h2 _; exact absurd h2.symm hk
        · exact h
      simp only [conflictLoop, h1, ne_eq, not_true_eq_false, if_false]
      exact ih _ hn.2 hm2 (fun kv hkv => hs kv (List.mem_cons_of_mem _ hkv))

/-- The conflict loop over the name set of `ns`, visited in any order, aborts when some
name held more than once does not occupy the first positions. -/
theorem conflictLoop_recordNames_none (sp : Nat → String) (ns : List String) (l : NameSet)
    (hp : l.Perm (recordNames ns 0 [])) (errs : FieldError) (x : String)
    (hc : 2 ≤ ns.count x) (ho : ¬ OccupiesFirst ns x) : conflictLoop sp l errs = none := by
  have hx : x ∈ ns := List.count_pos_iff.mp (by omega)
  have hm : (x, positionsFrom x ns 0) ∈ l := hp.mem_iff.mpr (recordNames_mem ns x hx)
  refine conflictLoop_none_of_mem sp l errs x _ hm ?_ ?_
  · rw [positionsFrom_length]; omega
  · rw [writePaths_entry, if_neg ((occupiesFirst_iff ns x).not.mp ho)]

/-- The conflict loop over the name set of `ns`, visited in any order, finishes when every
name held more than once occupies the first positions, and adds `conflictErrs`. -/
theorem conflictLoop_recordNames_some (sp : Nat → String) (ns : List String) (l : NameSet)
    (hp : l.Perm (recordNames ns 0 [])) (errs : FieldError)
    (ho : ∀ x, 2 ≤ ns.count x → OccupiesFirst ns x) :
    conflictLoop sp l errs = some (errs ++ conflictErrs sp ns) := by
  have hn : (l.map Prod.fst).Nodup :=
    (hp.map Prod.fst).nodup_iff.mpr (recordNames_nodup_keys ns 0 [] (by simp))
  have hent : ∀ kv ∈ l, kv.1 ∈ ns ∧ kv.2 = positionsFrom kv.1 ns 0 := fun kv hkv =>
    recordNames_entry ns kv.1 kv.2 (hp.mem_iff.mp hkv)
  have hsingle : ∀ kv ∈ l, ns.head? ≠ some kv.1 → kv.2.length = 1 := by
    intro kv hkv hne
    obtain ⟨hk, hv⟩ := hent kv hkv
    rw [hv, positionsFrom_length]
    have h1 : 1 ≤ ns.count kv.1 := List.count_pos_iff.mpr hk
    by_contra h2
    exact hne (OccupiesFirst.head ns kv.1 (ho kv.1 (by omega)) h1)
  cases ns with
  | nil =>
    simp only [conflictErrs, List.append_nil]
    exact conflictLoop_of_all_single sp l errs (fun kv hkv => hsingle kv hkv (by simp))
  | cons x rest =>
    by_cases hc : 2 ≤ (x :: rest).count x
    · simp only [conflictErrs, hc, if_true]
      have hm : (x, positionsFrom x (x :: rest) 0) ∈ l :=
        hp.mem_iff.mpr (recordNames_mem _ x (List.mem_cons_self _ _))
      refine conflictLoop_one_conflict sp l errs x _ _ hn hm ?_ ?_ ?_
      · rw [positionsFrom_length]; omega
      · rw [writePaths_entry, if_pos ((occupiesFirst_iff _ x).mp (ho x hc))]
      · intro kv hkv hne
        exact hsingle kv hkv (by simpa using fun e => hne e.symm)
    · simp only [conflictErrs, hc, if_false, List.append_nil]
      refine conflictLoop_of_all_single sp l errs ?_
      intro kv hkv
      by_cases hk : kv.1 = x
      · obtain ⟨_, hv⟩ := hent kv hkv
        rw [hv, positionsFrom_length, hk]
        have : 1 ≤ (x :: rest).count x := List.count_pos_iff.mpr (List.mem_cons_self _ _)
        omega
      · exact hsingle kv hkv (by simpa using fun e => hk e.symm)

/-- The conflict loop over the name set of `ns` has the same outcome in every iteration
order. -/
theorem conflictLoop_order_irrelevant (sp : Nat → String) (ns : List String)
    (o1 o2 : MapOrder) (errs : FieldError) :
    conflictLoop sp (o1.iter (recordNames ns 0 [])) errs =
      conflictLoop sp (o2.iter (recordNames ns 0 [])) errs := by
  by_cases ho : ∀ x, 2 ≤ ns.count x → OccupiesFirst ns x
  · rw [conflictLoop_recordNames_some sp ns _ (o1.perm _) errs ho,
      conflictLoop_recordNames_some sp ns _ (o2.perm _) errs ho]
  · simp only [not_forall] at ho
    obtain ⟨x, hc, hx⟩ := ho
    rw [conflictLoop_recordNames_none sp ns _ (o1.perm _) errs x hc hx,
      conflictLoop_recordNames_none sp ns _ (o2.perm _) errs x hc hx]

/-! ## The claims on single steps and on determinism -/

/-- C11: on a descriptor on which `Validate` returns and whose service is present with an
empty name, the aggregate holds the missing-field error at `spec.service.name` that the
core emits, next to every error of the external reference validator re-rooted under
`spec.service`: the aggregate contains the re-rooted external errors, then the namespace
error if any, then the core error, as consecutive and separate entries. -/
theorem Validate_service_name_missing (ext : Externals) (eo mo : MapOrder)
    (b : ServiceBinding) (r : FieldError) (svc : Reference)
    (h : ServiceBinding.Validate ext eo mo b = some r)
    (hs : b.Spec.Service = some svc) (hn : svc.Name = "") :
    HasErrorAt r ErrKind.missingField "spec.service.name" ∧
    (∀ e ∈ ViaField "spec.service" (ext.referenceValidate { svc with Namespace := "fake" }),
      e ∈ r) ∧
    ∃ before after, r = before ++
      ViaField "spec.service" (ext.referenceValidate { svc with Namespace := "fake" }) ++
      namespaceErrs "spec.service.namespace" svc.Namespace ++
      ErrMissingField ["spec.service.name"] ++ after := by
  obtain ⟨x1, x2, hr, _⟩ := Validate_some ext eo mo b r h
  have hS : checkService ext b [] =
      ViaField "spec.service" (ext.referenceValidate { svc with Namespace := "fake" }) ++
      namespaceErrs "spec.service.namespace" svc.Namespace ++
      ErrMissingField ["spec.service.name"] := by
    unfold checkService namespaceErrs
    rw [hs]
    by_cases hns : svc.Namespace = "" <;> simp [Also, hns, hn]
  have hdec : r = checkApplication ext b [] ++
      ViaField "spec.service" (ext.referenceValidate { svc with Namespace := "fake" }) ++
      namespaceErrs "spec.service.namespace" svc.Namespace ++
      ErrMissingField ["spec.service.name"] ++
      (envItemErrs ext b.Spec.Env 0 ++ x1 ++ mappingItemErrs b.Spec.Mappings 0 ++ x2 ++
        checkStatus b []) := by
    rw [hr, hS]; simp [List.append_assoc]
  refine ⟨?_, ?_, ⟨_, _, hdec⟩⟩
  · rw [hdec]
    simp only [HasErrorAt_append]
    refine Or.inl (Or.inr ?_)
    simp [ErrMissingField, HasErrorAt_cons]
  · intro e he
    rw [hdec]
    simp only [List.mem_append]
    exact Or.inl (Or.inl (Or.inl (Or.inr he)))

theorem Validate_service_name_missing_witness :
    HasErrorAt
      [{ kind := ErrKind.missingField, paths := ["spec.service.name"] },
       { kind := ErrKind.missingField, paths := ["spec.service.name"] }]
      ErrKind.missingField "spec.service.name" ∧
    (∀ e ∈ ViaField "spec.service" (sampleExternals.referenceValidate
        { ({ sampleService with Name := "" } : Reference) with Namespace := "fake" }),
      e ∈ [({ kind := ErrKind.missingField, paths := ["spec.service.name"] } : FieldErr),
           { kind := ErrKind.missingField, paths := ["spec.service.name"] }]) ∧
    ∃ before after,
      [({ kind := ErrKind.missingField, paths := ["spec.service.name"] } : FieldErr),
       { kind := ErrKind.missingField, paths := ["spec.service.name"] }] = before ++
      ViaField "spec.service" (sampleExternals.referenceValidate
        { ({ sampleService with Name := "" } : Reference) with Namespace := "fake" }) ++
      namespaceErrs "spec.service.namespace"
        ({ sampleService with Name := "" } : Reference).Namespace ++
      ErrMissingField ["spec.service.name"] ++ after :=
  Validate_service_name_missing sampleExternals MapOrder.insertion MapOrder.insertion
    serviceWithoutName _ { sampleService with Name := "" } (by decide) rfl rfl

/-- C12 (as stated it fails): a descriptor whose status annotations map is allocated but
holds no entry still gets the disallowed-field error at `status.annotations`. -/
theorem Validate_empty_annotations_disallowed :
    emptyAnnotationsBinding.Status.Annotations = some [] ∧
    ServiceBinding.Validate sampleExternals MapOrder.insertion MapOrder.insertion
      emptyAnnotationsBinding =
        some [{ kind := ErrKind.disallowedField, paths := ["status.annotations"] }] ∧
    HasErrorAt [{ kind := ErrKind.disallowedField, paths := ["status.annotations"] }]
      ErrKind.disallowedField "status.annotations" := by
  decide

/-- C12 (amended): on a descriptor on which `Validate` returns, the aggregate holds a
disallowed-field error at `status.annotations` exactly when the status annotations map is
present, that is not nil, whether or not it holds an entry. -/
theorem Validate_status_annotations_disallowed (ext : Externals) (eo mo : MapOrder)
    (b : ServiceBinding) (r : FieldError)
    (h : ServiceBinding.Validate ext eo mo b = some r) :
    HasErrorAt r ErrKind.disallowedField "status.annotations" ↔
      b.Status.Annotations ≠ none := by
  rw [Validate_disallowed_source ext eo mo b r h, HasErrorAt_checkApplication,
    HasErrorAt_checkService, HasErrorAt_checkStatus]
  have n1 : ∀ fe, ¬ HasErrorAt (ViaField "spec.application" fe) ErrKind.disallowedField
      "status.annotations" := fun fe hx =>
    absurd (HasErrorAt_ViaField_starts _ _ _ _ hx) (by decide)
  have n2 : ∀ fe, ¬ HasErrorAt (ViaField "spec.service" fe) ErrKind.disallowedField
      "status.annotations" := fun fe hx =>
    absurd (HasErrorAt_ViaField_starts _ _ _ _ hx) (by decide)
  have n3 : ¬ HasErrorAt (envItemErrs ext b.Spec.Env 0) ErrKind.disallowedField
      "status.annotations" := fun hx =>
    absurd (HasErrorAt_envItemErrs _ _ _ _ _ hx) (by decide)
  have d1 : ¬ ("status.annotations" = "spec.application.namespace") := by decide
  have d2 : ¬ ("status.annotations" = "spec.service.namespace") := by decide
  have d3 : ¬ (ErrKind.disallowedField = ErrKind.missingField) := by decide
  simp only [n1, n2, n3, d1, d2, d3, and_false, false_and, false_or, or_false,
    exists_false, and_true, true_and, ne_eq]

theorem Validate_status_annotations_disallowed_witness :
    HasErrorAt [{ kind := ErrKind.disallowedField, paths := ["status.annotations"] }]
      ErrKind.disallowedField "status.annotations" ↔
      emptyAnnotationsBinding.Status.Annotations ≠ none :=
  Validate_status_annotations_disallowed sampleExternals MapOrder.insertion
    MapOrder.reversed emptyAnnotationsBinding _ (by decide)

/-- C13: `Mapping.Validate` returns the nil aggregate when the name is non-empty and
otherwise exactly one error, missing field at `name`; the value plays no part. -/
theorem Mapping_Validate_result :
    (∀ m : Mapping, m.Validate =
      if m.Name = "" then [{ kind := ErrKind.missingField, paths := ["name"] }] else []) ∧
    (∀ (m : Mapping) (v : String), ({ m with Value := v } : Mapping).Validate = m.Validate) := by
  constructor
  · intro m
    unfold Mapping.Validate
    by_cases h : m.Name = "" <;> simp [h, Also, ErrMissingField]
  · intro m v
    rfl

/-- C14: the outcome of `Validate` does not depend on the orders in which the two name
sets are iterated: two runs either both abort or return the same aggregate, with the same
errors in the same order. -/
theorem Validate_deterministic (ext : Externals) (eo1 mo1 eo2 mo2 : MapOrder)
    (b : ServiceBinding) :
    ServiceBinding.Validate ext eo1 mo1 b = ServiceBinding.Validate ext eo2 mo2 b := by
  rw [Validate_unfold, Validate_unfold]
  unfold envSetOf mappingSetOf
  rw [conflictLoop_order_irrelevant envPath _ eo1 eo2]
  cases conflictLoop envPath (eo2.iter (recordNames (b.Spec.Env.map EnvVar.Name) 0 []))
      (errsBeforeEnvConflicts ext b) with
  | none => rfl
  | some e1 =>
    simp only
    rw [conflictLoop_order_irrelevant mappingPath _ mo1 mo2]

/-! ## The claims on the duplicate-name loops -/

/-- The conflict loop over the name set of `ns`, in any iteration order: it finishes
exactly when every name held more than once occupies the first positions; when it finishes
and a name is held `k >= 2` times, it adds the one error over the paths of positions
`0 .. k-1`; and then no second name is held more than once. -/
theorem conflictLoop_recordNames_spec (sp : Nat → String) (ns : List String) (o : MapOrder)
    (errs : FieldError) :
    (conflictLoop sp (o.iter (recordNames ns 0 [])) errs ≠ none ↔
      ∀ x, 2 ≤ ns.count x → OccupiesFirst ns x) ∧
    (∀ x, conflictLoop sp (o.iter (recordNames ns 0 [])) errs ≠ none → 2 ≤ ns.count x →
      conflictLoop sp (o.iter (recordNames ns 0 [])) errs =
        some (errs ++ ErrMultipleOneOf ((List.range (ns.count x)).map sp))) ∧
    ((∀ x, 2 ≤ ns.count x → OccupiesFirst ns x) →
      ∀ x y, 2 ≤ ns.count x → 2 ≤ ns.count y → x = y) := by
  have hiff : conflictLoop sp (o.iter (recordNames ns 0 [])) errs ≠ none ↔
      ∀ x, 2 ≤ ns.count x → OccupiesFirst ns x := by
    constructor
    · intro hne x hc
      by_contra ho
      exact hne (conflictLoop_recordNames_none sp ns _ (o.perm _) errs x hc ho)
    · intro ho
      rw [conflictLoop_recordNames_some sp ns _ (o.perm _) errs ho]
      simp
  have hhead : (∀ x, 2 ≤ ns.count x → OccupiesFirst ns x) →
      ∀ x, 2 ≤ ns.count x → ns.head? = some x := fun ho x hc =>
    OccupiesFirst.head ns x (ho x hc) (by omega)
  refine ⟨hiff, ?_, ?_⟩
  · intro x hne hc
    have ho := hiff.mp hne
    rw [conflictLoop_recordNames_some sp ns _ (o.perm _) errs ho]
    have hx := hhead ho x hc
    cases ns with
    | nil => simp at hx
    | cons n rest =>
      simp only [List.head?_cons, Option.some.injEq] at hx
      subst hx
      simp only [conflictErrs, hc, if_true]
  · intro ho x y hx hy
    have h1 := hhead ho x hx
    have h2 := hhead ho y hy
    rw [h1] at h2
    exact Option.some.inj h2

/-- C15: the duplicate-name loop over `envSet` (and likewise over `mappingSet`), in any
iteration order, finishes without an out-of-range write exactly when every name held by
`k >= 2` entries occupies the positions `0 .. k-1`; in that case at most one name is held
more than once, and the loop adds the single error
`ErrMultipleOneOf("spec.env[0].name", .., "spec.env[k-1].name")`. -/
theorem conflict_loops_finish_iff (ext : Externals) (o : MapOrder) (b : ServiceBinding)
    (errs0 errs : FieldError) :
    ((conflictLoop envPath (o.iter (envLoop ext b.Spec.Env 0 (errs0, [])).2) errs ≠ none ↔
        ∀ x, 2 ≤ (b.Spec.Env.map EnvVar.Name).count x →
          OccupiesFirst (b.Spec.Env.map EnvVar.Name) x) ∧
      (∀ x, conflictLoop envPath (o.iter (envLoop ext b.Spec.Env 0 (errs0, [])).2) errs ≠ none →
        2 ≤ (b.Spec.Env.map EnvVar.Name).count x →
        conflictLoop envPath (o.iter (envLoop ext b.Spec.Env 0 (errs0, [])).2) errs =
          some (errs ++ ErrMultipleOneOf
            ((List.range ((b.Spec.Env.map EnvVar.Name).count x)).map envPath))) ∧
      ((∀ x, 2 ≤ (b.Spec.Env.map EnvVar.Name).count x →
          OccupiesFirst (b.Spec.Env.map EnvVar.Name) x) →
        ∀ x y, 2 ≤ (b.Spec.Env.map EnvVar.Name).count x →
          2 ≤ (b.Spec.Env.map EnvVar.Name).count y → x = y)) ∧
    ((conflictLoop mappingPath (o.iter (mappingLoop b.Spec.Mappings 0 (errs0, [])).2) errs ≠
          none ↔
        ∀ x, 2 ≤ (b.Spec.Mappings.map Mapping.Name).count x →
          OccupiesFirst (b.Spec.Mappings.map Mapping.Name) x) ∧
      (∀ x, conflictLoop mappingPath (o.iter (mappingLoop b.Spec.Mappings 0 (errs0, [])).2)
            errs ≠ none →
        2 ≤ (b.Spec.Mappings.map Mapping.Name).count x →
        conflictLoop mappingPath (o.iter (mappingLoop b.Spec.Mappings 0 (errs0, [])).2) errs =
          some (errs ++ ErrMultipleOneOf
            ((List.range ((b.Spec.Mappings.map Mapping.Name).count x)).map mappingPath))) ∧
      ((∀ x, 2 ≤ (b.Spec.Mappings.map Mapping.Name).count x →
          OccupiesFirst (b.Spec.Mappings.map Mapping.Name) x) →
        ∀ x y, 2 ≤ (b.Spec.Mappings.map Mapping.Name).count x →
          2 ≤ (b.Spec.Mappings.map Mapping.Name).count y → x = y)) := by
  rw [envLoop_eq, mappingLoop_eq]
  exact ⟨conflictLoop_recordNames_spec envPath _ o errs,
    conflictLoop_recordNames_spec mappingPath _ o errs⟩

theorem conflict_loops_finish_iff_witness :
    conflictLoop envPath
        (MapOrder.reversed.iter (envLoop sampleExternals duplicatesFirst.Spec.Env 0 ([], [])).2)
        [] =
      some (ErrMultipleOneOf ["spec.env[0].name", "spec.env[1].name"]) ∧
    conflictLoop mappingPath
        (MapOrder.reversed.iter (mappingLoop duplicatesFirst.Spec.Mappings 0 ([], [])).2) [] =
      some (ErrMultipleOneOf ["spec.mappings[0].name", "spec.mappings[1].name"]) :=
  ⟨(conflict_loops_finish_iff sampleExternals MapOrder.reversed duplicatesFirst [] []).1.2.1
      "X" (by decide) (by decide),
    (conflict_loops_finish_iff sampleExternals MapOrder.reversed duplicatesFirst [] []).2.2.1
      "M" (by decide) (by decide)⟩

/-! ## The claims on item errors and on the caller's namespace -/

theorem mem_envItemErrs (ext : Externals) (es : List EnvVar) (j i : Nat) (x : EnvVar)
    (e : FieldErr) (hx : es[i]? = some x)
    (he : e ∈ ViaField "spec" (ViaFieldIndex "env" (j + i) (ext.envVarValidate x))) :
    e ∈ envItemErrs ext es j := by
  induction es generalizing j i with
  | nil => simp at hx
  | cons y es ih =>
    simp only [envItemErrs, List.mem_append]
    cases i with
    | zero =>
      simp only [List.getElem?_cons_zero, Option.some.injEq] at hx
      subst hx
      exact Or.inl (by simpa using he)
    | succ i =>
      simp only [List.getElem?_cons_succ] at hx
      refine Or.inr (ih (j + 1) i hx ?_)
      have e1 : j + 1 + i = j + (i + 1) := by omega
      rw [e1]; exact he

theorem mem_mappingItemErrs (ms : List Mapping) (j i : Nat) (m : Mapping)
    (e : FieldErr) (hm : ms[i]? = some m)
    (he : e ∈ ViaField "spec" (ViaFieldIndex "mappings" (j + i) m.Validate)) :
    e ∈ mappingItemErrs ms j := by
  induction ms generalizing j i with
  | nil => simp at hm
  | cons y ms ih =>
    simp only [mappingItemErrs, List.mem_append]
    cases i with
    | zero =>
      simp only [List.getElem?_cons_zero, Option.some.injEq] at hm
      subst hm
      exact Or.inl (by simpa using he)
    | succ i =>
      simp only [List.getElem?_cons_succ] at hm
      refine Or.inr (ih (j + 1) i hm ?_)
      have e1 : j + 1 + i = j + (i + 1) := by omega
      rw [e1]; exact he

/-- C16: on a descriptor on which `Validate` returns, every error of the item validator of
`mappings[i]` is in the aggregate re-rooted under `spec.mappings[i]`, and every error of
the item validator of `env[i]` re-rooted under `spec.env[i]`, whether or not the name of
the item is also reported as duplicated. -/
theorem Validate_keeps_item_errors (ext : Externals) (eo mo : MapOrder) (b : ServiceBinding)
    (r : FieldError) (h : ServiceBinding.Validate ext eo mo b = some r) :
    (∀ i m, b.Spec.Mappings[i]? = some m →
      ∀ e ∈ ViaField "spec" (ViaFieldIndex "mappings" i m.Validate), e ∈ r) ∧
    (∀ i x, b.Spec.Env[i]? = some x →
      ∀ e ∈ ViaField "spec" (ViaFieldIndex "env" i (ext.envVarValidate x)), e ∈ r) := by
  obtain ⟨x1, x2, hr, _⟩ := Validate_some ext eo mo b r h
  constructor
  · intro i m hm e he
    have := mem_mappingItemErrs b.Spec.Mappings 0 i m e hm (by simpa using he)
    rw [hr]
    simp only [List.mem_append]
    exact Or.inl (Or.inl (Or.inr this))
  · intro i x hx e he
    have := mem_envItemErrs ext b.Spec.Env 0 i x e hx (by simpa using he)
    rw [hr]
    simp only [List.mem_append]
    exact Or.inl (Or.inl (Or.inl (Or.inl (Or.inr this))))

theorem Validate_keeps_item_errors_witness :
    ServiceBinding.Validate sampleExternals MapOrder.insertion MapOrder.insertion
      twoUnnamedMappings =
      some [{ kind := ErrKind.missingField, paths := ["spec.mappings[0].name"] },
            { kind := ErrKind.missingField, paths := ["spec.mappings[1].name"] },
            { kind := ErrKind.multipleOneOf,
              paths := ["spec.mappings[0].name", "spec.mappings[1].name"] }] ∧
    ((∀ i m, twoUnnamedMappings.Spec.Mappings[i]? = some m →
      ∀ e ∈ ViaField "spec" (ViaFieldIndex "mappings" i m.Validate),
        e ∈ [({ kind := ErrKind.missingField, paths := ["spec.mappings[0].name"] } : FieldErr),
            { kind := ErrKind.missingField, paths := ["spec.mappings[1].name"] },
            { kind := ErrKind.multipleOneOf,
              paths := ["spec.mappings[0].name", "spec.mappings[1].name"] }]) ∧
    (∀ i x, twoUnnamedMappings.Spec.Env[i]? = some x →
      ∀ e ∈ ViaField "spec" (ViaFieldIndex "env" i (sampleExternals.envVarValidate x)),
        e ∈ [({ kind := ErrKind.missingField, paths := ["spec.mappings[0].name"] } : FieldErr),
            { kind := ErrKind.missingField, paths := ["spec.mappings[1].name"] },
            { kind := ErrKind.multipleOneOf,
              paths := ["spec.mappings[0].name", "spec.mappings[1].name"] }])) :=
  ⟨by decide,
    Validate_keeps_item_errors sampleExternals MapOrder.insertion MapOrder.insertion
      twoUnnamedMappings _ (by decide)⟩

theorem conflictLoop_append (sp : Nat → String) (l : NameSet) (errs : FieldError) :
    conflictLoop sp l errs = (conflictLoop sp l []).map (fun t => errs ++ t) := by
  induction l generalizing errs with
  | nil => simp [conflictLoop]
  | cons kv rest ih =>
    obtain ⟨k, v⟩ := kv
    simp only [conflictLoop]
    split
    · split
      · rfl
      · rename_i paths _
        rw [ih (Also errs (ErrMultipleOneOf paths)), ih (Also [] (ErrMultipleOneOf paths))]
        cases conflictLoop sp rest [] <;> simp [Also, List.append_assoc]
    · exact ih errs

/-- The aggregate of `Validate` is what the two reference steps add, followed by what
the rest of the function adds; the rest does not read the two references. -/
theorem Validate_eq_tail (ext : Externals) (eo mo : MapOrder) (b : ServiceBinding) :
    ServiceBinding.Validate ext eo mo b =
      (validateTail ext eo mo b).map
        (fun t => checkApplication ext b [] ++ checkService ext b [] ++ t) := by
  rw [Validate_unfold, validateTail, conflictLoop_append envPath _ (errsBeforeEnvConflicts ext b)]
  cases conflictLoop envPath (eo.iter (envSetOf b)) [] with
  | none => rfl
  | some x1 =>
    simp only [Option.map_some']
    rw [conflictLoop_append mappingPath _ _]
    cases conflictLoop mappingPath (mo.iter (mappingSetOf b)) [] with
    | none => rfl
    | some x2 =>
      simp [errsBeforeEnvConflicts, List.append_assoc]

theorem checkApplication_of_some (ext : Externals) (b : ServiceBinding)
    (app : ApplicationReference) (h : b.Spec.Application = some app) :
    checkApplication ext b [] =
      ViaField "spec.application" (ext.applicationValidate { app with Namespace := "fake" }) ++
      namespaceErrs "spec.application.namespace" app.Namespace := by
  unfold checkApplication namespaceErrs
  rw [h]
  by_cases hns : app.Namespace = "" <;> simp [Also, hns]

theorem checkService_of_some (ext : Externals) (b : ServiceBinding) (svc : Reference)
    (h : b.Spec.Service = some svc) :
    checkService ext b [] =
      ViaField "spec.service" (ext.referenceValidate { svc with Namespace := "fake" }) ++
      namespaceErrs "spec.service.namespace" svc.Namespace ++
      (if svc.Name = "" then ErrMissingField ["spec.service.name"] else []) := by
  unfold checkService namespaceErrs
  rw [h]
  by_cases hns : svc.Namespace = "" <;> by_cases hn : svc.Name = "" <;> simp [Also, hns, hn]

theorem envItemErrs_congr (ext1 ext2 : Externals) (es : List EnvVar) (i : Nat)
    (h : ext1.envVarValidate = ext2.envVarValidate) :
    envItemErrs ext1 es i = envItemErrs ext2 es i := by
  induction es generalizing i with
  | nil => rfl
  | cons e es ih => simp only [envItemErrs, h, ih]

/-- C17: the external reference validators are applied to placeholder copies only, so
`Validate` depends on them through their results on references whose namespace is `fake`;
and for two descriptors that differ only in the namespace of the application (or only in
that of the service) the two runs either both abort or return aggregates made of the same
errors before, the same re-rooted external errors and the same errors after, differing at
most by the disallowed-field error of the namespace check. -/
theorem Validate_namespace_noninterference (ext : Externals) (eo mo : MapOrder)
    (b : ServiceBinding) (ns : String) :
    (∀ ext2 : Externals,
      (∀ r, r.Namespace = "fake" → ext2.applicationValidate r = ext.applicationValidate r) →
      (∀ r, r.Namespace = "fake" → ext2.referenceValidate r = ext.referenceValidate r) →
      ext2.envVarValidate = ext.envVarValidate →
      ServiceBinding.Validate ext2 eo mo b = ServiceBinding.Validate ext eo mo b) ∧
    (∀ app, b.Spec.Application = some app →
      ∃ after : Option FieldError,
        ServiceBinding.Validate ext eo mo b = after.map (fun t =>
          ViaField "spec.application"
            (ext.applicationValidate { app with Namespace := "fake" }) ++
          namespaceErrs "spec.application.namespace" app.Namespace ++ t) ∧
        ServiceBinding.Validate ext eo mo
            { b with Spec := { b.Spec with
                Application := some { app with Namespace := ns } } } =
          after.map (fun t =>
          ViaField "spec.application"
            (ext.applicationValidate { app with Namespace := "fake" }) ++
          namespaceErrs "spec.application.namespace" ns ++ t)) ∧
    (∀ svc, b.Spec.Service = some svc →
      ∃ (before : FieldError) (after : Option FieldError),
        ServiceBinding.Validate ext eo mo b = after.map (fun t =>
          before ++
          ViaField "spec.service" (ext.referenceValidate { svc with Namespace := "fake" }) ++
          namespaceErrs "spec.service.namespace" svc.Namespace ++ t) ∧
        ServiceBinding.Validate ext eo mo
            { b with Spec := { b.Spec with Service := some { svc with Namespace := ns } } } =
          after.map (fun t =>
          before ++
          ViaField "spec.service" (ext.referenceValidate { svc with Namespace := "fake" }) ++
          namespaceErrs "spec.service.namespace" ns ++ t)) := by
  refine ⟨?_, ?_, ?_⟩
  · intro ext2 hA hS hE
    rw [Validate_eq_tail, Validate_eq_tail]
    have h1 : checkApplication ext2 b [] = checkApplication ext b [] := by
      unfold checkApplication
      cases b.Spec.Application with
      | none => rfl
      | some app => simp only [hA { app with Namespace := "fake" } rfl]
    have h2 : checkService ext2 b [] = checkService ext b [] := by
      unfold checkService
      cases b.Spec.Service with
      | none => rfl
      | some svc => simp only [hS { svc with Namespace := "fake" } rfl]
    have h3 : validateTail ext2 eo mo b = validateTail ext eo mo b := by
      unfold validateTail
      rw [envItemErrs_congr ext2 ext _ _ hE]
    rw [h1, h2, h3]
  · intro app ha
    refine ⟨(validateTail ext eo mo b).map (fun t => checkService ext b [] ++ t), ?_, ?_⟩
    · rw [Validate_eq_tail, checkApplication_of_some ext b app ha, Option.map_map]
      congr 1
      funext t
      simp [List.append_assoc]
    · rw [Validate_eq_tail,
        checkApplication_of_some ext _ { app with Namespace := ns } rfl, Option.map_map]
      have ht : validateTail ext eo mo
          { b with Spec := { b.Spec with Application := some { app with Namespace := ns } } } =
          validateTail ext eo mo b := rfl
      have hs : checkService ext
          { b with Spec := { b.Spec with Application := some { app with Namespace := ns } } } [] =
          checkService ext b [] := rfl
      rw [ht, hs]
      congr 1
      funext t
      simp [List.append_assoc]
  · intro svc hs
    refine ⟨checkApplication ext b [], (validateTail ext eo mo b).map (fun t =>
      (if svc.Name = "" then ErrMissingField ["spec.service.name"] else []) ++ t), ?_, ?_⟩
    · rw [Validate_eq_tail, checkService_of_some ext b svc hs, Option.map_map]
      congr 1
      funext t
      simp [List.append_assoc]
    · rw [Validate_eq_tail,
        checkService_of_some ext _ { svc with Namespace := ns } rfl, Option.map_map]
      have ht : validateTail ext eo mo
          { b with Spec := { b.Spec with Service := some { svc with Namespace := ns } } } =
          validateTail ext eo mo b := rfl
      have ha : checkApplication ext
          { b with Spec := { b.Spec with Service := some { svc with Namespace := ns } } } [] =
          checkApplication ext b [] := rfl
      rw [ht, ha]
      congr 1
      funext t
      simp [List.append_assoc]

theorem Validate_namespace_noninterference_witness :
    (∃ after : Option FieldError,
      ServiceBinding.Validate strictExternals MapOrder.insertion MapOrder.insertion
          validBinding = after.map (fun t =>
        ViaField "spec.application"
          (strictExternals.applicationValidate { sampleApplication with Namespace := "fake" }) ++
        namespaceErrs "spec.application.namespace" sampleApplication.Namespace ++ t) ∧
      ServiceBinding.Validate strictExternals MapOrder.insertion MapOrder.insertion
          { validBinding with Spec := { validBinding.Spec with
              Application := some { sampleApplication with Namespace := "other" } } } =
        after.map (fun t =>
        ViaField "spec.application"
          (strictExternals.applicationValidate { sampleApplication with Namespace := "fake" }) ++
        namespaceErrs "spec.application.namespace" "other" ++ t)) ∧
    ServiceBinding.Validate strictExternals MapOrder.insertion MapOrder.insertion
        validBinding = some [] ∧
    ServiceBinding.Validate strictExternals MapOrder.insertion MapOrder.insertion
        { validBinding with Spec := { validBinding.Spec with
            Application := some { sampleApplication with Namespace := "other" } } } =
      some [{ kind := ErrKind.disallowedField, paths := ["spec.application.namespace"] }] :=
  ⟨(Validate_namespace_noninterference strictExternals MapOrder.insertion MapOrder.insertion
      validBinding "other").2.1 sampleApplication rfl, by decide, by decide⟩

end ServiceBindings
